import Mathlib

/-!
Shallow embedding of the routing and live-location core of the repository
(src/graphml.py and src/routing_service.py).

Python floats are modelled as rationals (ℚ), Python dicts as association
lists whose iteration order is the list order (Python dicts preserve
insertion order), and Python exceptions as an explicit error type.
-/

set_option maxHeartbeats 1000000

/-- Python exception kinds relevant to the embedded code paths. -/
inductive PyErr where
  | typeError
  | keyError
  | valueError
deriving DecidableEq, Repr

/-! ### Association-list primitives (Python dict operations) -/

/-- Python dict lookup `d[k]` / `d.get(k)`: first binding of the key wins
(with unique keys, the binding). -/
def lookupA {κ β : Type} [DecidableEq κ] : List (κ × β) → κ → Option β
  | [], _ => none
  | (k, v) :: rest, key => if k = key then some v else lookupA rest key

/-- Python dict assignment `d[k] = v`: update in place (preserving the key's
position) if present, else append at the end. -/
def setA {κ β : Type} [DecidableEq κ] : List (κ × β) → κ → β → List (κ × β)
  | [], key, val => [(key, val)]
  | (k, v) :: rest, key, val =>
    if k = key then (k, val) :: rest else (k, v) :: setA rest key val

/-- Python dict deletion `d.pop(k, None)`: remove the key's binding(s). -/
def eraseA {κ β : Type} [DecidableEq κ] (l : List (κ × β)) (key : κ) : List (κ × β) :=
  l.filter (fun kv => kv.1 ≠ key)

theorem lookupA_setA_self {κ β : Type} [DecidableEq κ] (l : List (κ × β)) (k : κ) (v : β) :
    lookupA (setA l k v) k = some v := by
  induction l with
  | nil => simp [setA, lookupA]
  | cons hd tl ih =>
    by_cases h : hd.1 = k
    · simp [setA, lookupA, h]
    · simp [setA, lookupA, h, ih]

theorem lookupA_setA_ne {κ β : Type} [DecidableEq κ] (l : List (κ × β)) (k k' : κ) (v : β)
    (h : k' ≠ k) : lookupA (setA l k v) k' = lookupA l k' := by
  induction l with
  | nil => simp [setA, lookupA, Ne.symm h]
  | cons hd tl ih =>
    by_cases hh : hd.1 = k
    · have hne : ¬ hd.1 = k' := by
        rw [hh]; exact Ne.symm h
      simp [setA, lookupA, hh, hne, Ne.symm h]
    · simp only [setA, hh, if_false, lookupA]
      by_cases hk : hd.1 = k'
      · simp [hk]
      · simp [hk, ih]

theorem lookupA_filter_of_true {κ β : Type} [DecidableEq κ] (p : κ × β → Bool)
    (l : List (κ × β)) (k : κ) (hp : ∀ v, p (k, v) = true) :
    lookupA (l.filter p) k = lookupA l k := by
  induction l with
  | nil => rfl
  | cons hd tl ih =>
    rw [List.filter_cons]
    by_cases hk : hd.1 = k
    · have hph : p hd = true := by
        have h2 := hp hd.2
        rw [← hk] at h2
        exact h2
      rw [hph]
      simp [lookupA, hk]
    · cases hph : p hd
      · simp [lookupA, hk, ih]
      · simp [lookupA, hk, ih]

theorem lookupA_filter_of_false {κ β : Type} [DecidableEq κ] (p : κ × β → Bool)
    (l : List (κ × β)) (k : κ) (hp : ∀ v, p (k, v) = false) :
    lookupA (l.filter p) k = none := by
  induction l with
  | nil => rfl
  | cons hd tl ih =>
    rw [List.filter_cons]
    by_cases hk : hd.1 = k
    · have hph : p hd = false := by
        have h2 := hp hd.2
        rw [← hk] at h2
        exact h2
      rw [hph]
      simpa using ih
    · cases hph : p hd
      · simpa using ih
      · simpa [lookupA, hk] using ih

theorem lookupA_eraseA_self {κ β : Type} [DecidableEq κ] (l : List (κ × β)) (k : κ) :
    lookupA (eraseA l k) k = none := by
  apply lookupA_filter_of_false
  intro v
  simp

theorem lookupA_eraseA_ne {κ β : Type} [DecidableEq κ] (l : List (κ × β)) (k k' : κ)
    (h : k' ≠ k) : lookupA (eraseA l k) k' = lookupA l k' := by
  apply lookupA_filter_of_true
  intro v
  simpa using h

theorem length_setA_of_lookupA_isSome {κ β : Type} [DecidableEq κ]
    (l : List (κ × β)) (k : κ) (v : β) (h : (lookupA l k).isSome) :
    (setA l k v).length = l.length := by
  induction l with
  | nil => simp [lookupA] at h
  | cons hd tl ih =>
    by_cases hh : hd.1 = k
    · simp [setA, hh]
    · simp [lookupA, hh] at h
      simp [setA, hh, ih h]

/-! ### src/graphml.py — region index and region selection -/

/-- A bounding box `(minx, miny, maxx, maxy)` in lon/lat (graphml.py). -/
structure Bbox where
  minx : ℚ
  miny : ℚ
  maxx : ℚ
  maxy : ℚ
deriving DecidableEq

/-- graphml.py `_point_in_bbox`: bounds-inclusive containment. -/
def point_in_bbox (lon lat : ℚ) (b : Bbox) : Bool :=
  decide (b.minx ≤ lon) && decide (lon ≤ b.maxx) && decide (b.miny ≤ lat) && decide (lat ≤ b.maxy)

/-- One entry of the region index: `{"path": ..., "bbox": ...}`; a missing or
null bbox is modelled as `none`. -/
structure RegionMeta where
  path : String
  bbox : Option Bbox
deriving DecidableEq

/-- A query point as accepted by `find_regions_for_points`: either a dict
`{'lat':…, 'lng':…}` or a `(lat, lon)` pair. -/
inductive QueryPoint where
  | dict (lat lng : ℚ)
  | pair (lat lon : ℚ)
deriving DecidableEq

/-- Normalization performed by `find_regions_for_points`: both shapes become
`(lon, lat)`. -/
def normalizePoint : QueryPoint → ℚ × ℚ
  | .dict lat lng => (lng, lat)
  | .pair lat lon => (lon, lat)

/-- The `matched` set accumulation of `find_regions_for_points` (as a list of
paths, possibly with duplicates; Python uses a set). -/
def matchedPaths (pts : List (ℚ × ℚ)) (index : List (String × RegionMeta)) : List String :=
  pts.foldl (fun acc pt =>
    index.foldl (fun acc2 e =>
      match e.2.bbox with
      | some b => if point_in_bbox pt.1 pt.2 b then e.2.path :: acc2 else acc2
      | none => acc2) acc) []

/-- The bbox centers computed in the fallback branch of
`find_regions_for_points`: `(path, cx, cy)` for every indexed region with a
bbox. -/
def bboxCenters (index : List (String × RegionMeta)) : List (String × ℚ × ℚ) :=
  index.filterMap (fun e =>
    e.2.bbox.map (fun b => (e.2.path, ((b.minx + b.maxx) / 2, (b.miny + b.maxy) / 2))))

/-- The squared Euclidean distance `d = (lon - cx)**2 + (lat - cy)**2` of the
fallback loop. -/
def distSq (lon lat : ℚ) (c : String × ℚ × ℚ) : ℚ :=
  (lon - c.2.1) ^ 2 + (lat - c.2.2) ^ 2

/-- The `best`/`bestd` loop: first region whose squared Euclidean
center-distance is strictly below the running minimum (initially infinite). -/
def nearestCenter (lon lat : ℚ) (centers : List (String × ℚ × ℚ)) : Option String :=
  (centers.foldl (fun best c =>
    match best with
    | none => some (c.1, distSq lon lat c)
    | some bv => if distSq lon lat c < bv.2 then some (c.1, distSq lon lat c) else some bv)
    none).map (·.1)

/-- Python `sorted(set(l))` over strings. -/
def sortedSet (l : List String) : List String :=
  l.dedup.insertionSort (· ≤ ·)

/-- graphml.py `find_regions_for_points`. -/
def find_regions_for_points (points : List QueryPoint) (index : List (String × RegionMeta)) :
    List String :=
  let pts := points.map normalizePoint
  let matched := matchedPaths pts index
  if matched ≠ [] then sortedSet matched
  else
    let centers := bboxCenters index
    let chosen := pts.foldl (fun acc pt =>
      match nearestCenter pt.1 pt.2 centers with
      | some best => if best ≠ "" then best :: acc else acc
      | none => acc) []
    sortedSet chosen

/-! ### src/graphml.py — maxspeed parsing and per-edge ETA -/

/-- The Python value found in an OSM `maxspeed` (or `speed_kph`) attribute. -/
inductive PyVal where
  | none_
  | num (q : ℚ)
  | str (s : String)
  | list (l : List PyVal)
  | other

/-- Digits of a decimal numeral to a natural number. -/
def digitsToNat (l : List Char) : ℕ :=
  l.foldl (fun n c => 10 * n + (c.toNat - 48)) 0

/-- Boolean contiguous-sublist test, for Python `'mph' in s`. -/
def containsSeq (needle : List Char) : List Char → Bool
  | [] => decide (needle = [])
  | c :: t => needle.isPrefixOf (c :: t) || containsSeq needle t

/-- The value of a regex match of `(\d+(?:\.\d+)?)`: integer digits `ip` and
fractional digits `fp`. -/
def tokenVal (ip fp : List Char) : ℚ :=
  (digitsToNat ip : ℚ) + (digitsToNat fp : ℚ) / (10 : ℚ) ^ fp.length

/-- Leftmost match of `(\d+(?:\.\d+)?)` (re.search): at the first digit, take
the maximal digit run, then optionally a dot followed by at least one digit
(maximal run). Returns (integer digits, fraction digits). -/
def firstNumericToken : List Char → Option (List Char × List Char)
  | [] => none
  | c :: rest =>
    if c.isDigit then
      let ip := (c :: rest).takeWhile Char.isDigit
      let r2 := (c :: rest).dropWhile Char.isDigit
      match r2 with
      | '.' :: r3 =>
        let fp := r3.takeWhile Char.isDigit
        if fp = [] then some (ip, []) else some (ip, fp)
      | _ => some (ip, [])
    else firstNumericToken rest

/-- Python `ms.lower().strip()` on the character list. -/
def pyLowerStrip (s : String) : List Char :=
  (((s.data.map Char.toLower).dropWhile Char.isWhitespace).reverse.dropWhile
    Char.isWhitespace).reverse

/-- The conversion factor `1.60934` used for mph tags. -/
def MPH_TO_KPH : ℚ := 160934 / 100000

/-- `_parse_maxspeed` on a string tag: first numeric token of the lowered,
stripped tag, times 1.60934 when 'mph' occurs in the tag. -/
def parse_maxspeed_str (s : String) : Option ℚ :=
  let t := pyLowerStrip s
  match firstNumericToken t with
  | none => none
  | some tok =>
    let val := tokenVal tok.1 tok.2
    if containsSeq ['m', 'p', 'h'] t then some (val * MPH_TO_KPH) else some val

/-- graphml.py `_parse_maxspeed`. Note that a list tag falls through the
`isinstance(ms, str)` guard after extracting its head, so only a list whose
head is a string parses; everything else yields None. -/
def parse_maxspeed : PyVal → Option ℚ
  | .none_ => none
  | .num q => some q
  | .str s => parse_maxspeed_str s
  | .list l =>
    match l.head? with
    | some (.str s) => parse_maxspeed_str s
    | _ => none
  | .other => none

/-- The edge attribute dict as used by the ETA loop of `get_route_on_roads`:
`length` is the float value of the length attribute (`none` when absent or
not float-parseable, in which case the code uses 0.0), `speed_kph` the
numeric osmnx speed attribute when present (Python `or` makes an explicit 0
fall through to maxspeed parsing). -/
structure EdgeAttr where
  length : Option ℚ
  speed_kph : Option ℚ
  maxspeed : PyVal

/-- The per-edge speed of the ETA loop in `get_route_on_roads`:
`sp = attr.get('speed_kph') or _parse_maxspeed(attr.get('maxspeed'))`,
then default 40 when `sp` is None or non-positive. -/
def effectiveSpeed (a : EdgeAttr) : ℚ :=
  let sp : Option ℚ :=
    match a.speed_kph with
    | some q => if q = 0 then parse_maxspeed a.maxspeed else some q
    | none => parse_maxspeed a.maxspeed
  match sp with
  | none => 40
  | some q => if q ≤ 0 then 40 else q

/-- One iteration of the ETA accumulation: edges with non-positive length
contribute nothing. -/
def edgeEta (a : EdgeAttr) : ℚ :=
  let ln := a.length.getD 0
  if 0 < ln then ln / 1000 / effectiveSpeed a * 60 else 0

/-- The ETA (minutes) accumulated over the primary path's edge attributes. -/
def pathEtaOfAttrs (attrs : List EdgeAttr) : ℚ :=
  (attrs.map edgeEta).sum

/-! ### src/graphml.py — `_multigraph_to_simple_digraph_min` -/

/-- One iteration of the edge loop: add the edge to the simple digraph,
keeping, per ordered node pair, the smaller weight. `wnum` has already been
computed as `float(length)` when parseable (else the per-edge default 1.0,
applied by the caller). -/
def upsertMin : List ((ℕ × ℕ) × ℚ) → ℕ × ℕ → ℚ → List ((ℕ × ℕ) × ℚ)
  | [], uv, w => [(uv, w)]
  | (p, wp) :: rest, uv, w =>
    if p = uv then (if w < wp then (p, w) else (p, wp)) :: rest
    else (p, wp) :: upsertMin rest uv w

/-- graphml.py `_multigraph_to_simple_digraph_min`: edges are given as
`(u, v, length)` with `length = none` when the raw attribute is absent or not
float-parseable; each such edge individually gets the default weight 1.0
before the running minimum is taken. -/
def multigraph_to_simple_digraph_min (edges : List (ℕ × ℕ × Option ℚ)) :
    List ((ℕ × ℕ) × ℚ) :=
  edges.foldl (fun g e => upsertMin g (e.1, e.2.1) (e.2.2.getD 1)) []

/-- The per-ordered-pair weights contributed by the parallel edges of a
multigraph, with each unusable length replaced by the per-edge default 1.0
(this is what the code minimizes over). -/
def parallelWeights (edges : List (ℕ × ℕ × Option ℚ)) (uv : ℕ × ℕ) : List ℚ :=
  (edges.filter (fun e => decide ((e.1, e.2.1) = uv))).map (fun e => e.2.2.getD 1)

/-- The usable (numeric) lengths among the parallel edges of an ordered pair,
as the frozen claim describes them. -/
def usableLengths (edges : List (ℕ × ℕ × Option ℚ)) (uv : ℕ × ℕ) : List ℚ :=
  (edges.filter (fun e => decide ((e.1, e.2.1) = uv))).filterMap (fun e => e.2.2)

/-- Fold of `min` over a list of rationals. -/
def minQ : List ℚ → Option ℚ
  | [] => none
  | q :: rest =>
    match minQ rest with
    | none => some q
    | some m => some (min q m)

/-! ### src/graphml.py — in-memory graph cache (`_loaded_cache`) -/

/-- `MAX_LOADED_COMPOSED` (graphml.py): default in-memory capacity. -/
def MAX_LOADED_COMPOSED : ℕ := 2

/-- graphml.py `_evict_if_needed`: when over capacity, sort the entries by
timestamp (stable) and delete from the front of the sorted order until the
count is within capacity. An entry is `(key, (timestamp, value))`. -/
def evict_if_needed {α : Type} (cap : ℕ) (c : List (String × ℚ × α)) :
    List (String × ℚ × α) :=
  if c.length ≤ cap then c
  else
    let sortedItems := c.insertionSort (fun a b => a.2.1 ≤ b.2.1)
    let victims := (sortedItems.take (c.length - cap)).map (·.1)
    c.filter (fun e => decide (e.1 ∉ victims))

/-- graphml.py `load_composed_subgraph_for_paths`, restricted to its effect on
the in-memory cache `_loaded_cache`: a hit refreshes the key's timestamp; a
miss (whether served from the disk cache or freshly composed) inserts the new
entry and then runs `_evict_if_needed`. `key` abstracts
`_cache_key_for_paths(paths)` and `fresh` the loaded graph triple. -/
def load_composed_subgraph_for_paths {α : Type} (cap : ℕ) (c : List (String × ℚ × α))
    (key : String) (now : ℚ) (fresh : α) : List (String × ℚ × α) :=
  match lookupA c key with
  | some tv => setA c key (now, tv.2)
  | none => evict_if_needed cap (c ++ [(key, now, fresh)])

/-- A sequence of loads against an initially empty in-memory cache. Each
operation is `(key, time-of-call, freshly composed value)`. -/
def load_seq {α : Type} (cap : ℕ) (ops : List (String × ℚ × α)) :
    List (String × ℚ × α) :=
  ops.foldl (fun c op => load_composed_subgraph_for_paths cap c op.1 op.2.1 op.2.2) []

/-! ### src/graphml.py — `get_route_on_roads` -/

/-- A `pickup`/`dropoff` argument: Python `None` or a dict of numeric
fields. -/
inductive PyDictLL where
  | none_
  | dict (entries : List (String × ℚ))

/-- Python truthiness of such an argument (`not pickup`): None and the empty
dict are falsy. -/
def truthyLL : PyDictLL → Bool
  | .none_ => false
  | .dict l => decide (l ≠ [])

/-- Python subscription `p['k']`: `TypeError` on None, `KeyError` on a dict
without the key. -/
def subscr : PyDictLL → String → Except PyErr ℚ
  | .none_, _ => .error .typeError
  | .dict l, k =>
    match lookupA l k with
    | some v => .ok v
    | none => .error .keyError

/-- The route dict returned by `get_route_on_roads`. -/
structure RouteOutput where
  route_coords : List (List ℚ)
  eta_min : Option ℚ
  alt_routes : List (List (List ℚ))
deriving DecidableEq

/-- The collaborators of `get_route_on_roads` that live outside this file's
scope (region index contents, osmnx graph loading and nearest-node search,
and the networkx `shortest_simple_paths` enumeration, which yields loopless
simple paths in increasing total weight over the simplified graph).
`simplePaths` is the enumeration sequence consumed with early stop. -/
structure RouteEnv where
  regionIndex : List (String × RegionMeta)
  loadOk : Bool
  nearestNode : ℚ → ℚ → ℕ
  projHas : ℕ → Bool
  simplePaths : ℕ → ℕ → List (List ℕ)
  nodeCoord : ℕ → ℚ × ℚ
  edgeAttr : ℕ → ℕ → EdgeAttr

/-- The straight-line result `[[p.lng, p.lat], [d.lng, d.lat]]` with null ETA
and no alternates. -/
def lineOut (plng plat dlng dlat : ℚ) : RouteOutput :=
  ⟨[[plng, plat], [dlng, dlat]], none, []⟩

/-- The fallback at graphml.py:317: it subscripts both endpoint arguments, so
it raises whenever one of them is None or lacks a key. -/
def fallbackLine (pickup dropoff : PyDictLL) : Except PyErr RouteOutput := do
  let plng ← subscr pickup "lng"
  let plat ← subscr pickup "lat"
  let dlng ← subscr dropoff "lng"
  let dlat ← subscr dropoff "lat"
  pure (lineOut plng plat dlng dlat)

/-- `nodes_to_lonlat`: node sequence to `[lon, lat]` polyline via unprojected
coordinates. -/
def polylineOf (env : RouteEnv) (p : List ℕ) : List (List ℚ) :=
  p.map (fun n => [(env.nodeCoord n).1, (env.nodeCoord n).2])

/-- The ETA loop over `zip(main_nodes[:-1], main_nodes[1:])`, reading each
edge's attribute dict from the projected graph. -/
def pathEta (env : RouteEnv) (p : List ℕ) : ℚ :=
  pathEtaOfAttrs ((p.zip p.tail).map (fun uv => env.edgeAttr uv.1 uv.2))

/-- graphml.py `get_route_on_roads`. -/
def get_route_on_roads (env : RouteEnv) (pickup dropoff : PyDictLL)
    (num_alternatives : ℤ) : Except PyErr RouteOutput :=
  if truthyLL pickup = false || truthyLL dropoff = false then
    fallbackLine pickup dropoff
  else
    match subscr pickup "lng", subscr pickup "lat", subscr dropoff "lng", subscr dropoff "lat" with
    | .ok plng, .ok plat, .ok dlng, .ok dlat =>
      let selected := find_regions_for_points
        [QueryPoint.dict plat plng, QueryPoint.dict dlat dlng] env.regionIndex
      if selected = [] then .ok (lineOut plng plat dlng dlat)
      else if env.loadOk = false then .ok (lineOut plng plat dlng dlat)
      else
        let orig := env.nearestNode plng plat
        let dest := env.nearestNode dlng dlat
        if env.projHas orig = false || env.projHas dest = false then
          .ok (lineOut plng plat dlng dlat)
        else
          let k := max 1 num_alternatives
          match (env.simplePaths orig dest).take k.toNat with
          | [] => .ok (lineOut plng plat dlng dlat)
          | main :: alts =>
            .ok ⟨polylineOf env main, some (pathEta env main),
                 alts.map (polylineOf env)⟩
    | _, _, _, _ => .error PyErr.keyError

/-! ### src/routing_service.py — route response cache -/

/-- `ROUTE_CACHE_TTL = 60 * 60` seconds. -/
def ROUTE_CACHE_TTL : ℚ := 60 * 60

/-- `ROUTE_CACHE_MAX = 2000`. -/
def ROUTE_CACHE_MAX : ℕ := 2000

/-- The pair of module-level dicts `_route_cache` (key → (timestamp, result))
and `_route_cache_access_order` (key → last-access time). -/
structure CacheState (κ α : Type) where
  routeCache : List (κ × (ℚ × α))
  accessOrder : List (κ × ℚ)
deriving DecidableEq

/-- routing_service.py `_cache_get`. The two `time.time()` calls of the
original are both modelled by `now`. -/
def cache_get {κ α : Type} [DecidableEq κ] (st : CacheState κ α) (key : κ) (now : ℚ) :
    Option α × CacheState κ α :=
  match lookupA st.routeCache key with
  | none => (none, st)
  | some tv =>
    if ROUTE_CACHE_TTL < now - tv.1 then
      (none, ⟨eraseA st.routeCache key, eraseA st.accessOrder key⟩)
    else
      (some tv.2, ⟨st.routeCache, setA st.accessOrder key now⟩)

/-- routing_service.py `_cache_set`. The overflow batch size
`max(1, int(0.1 * ROUTE_CACHE_MAX))` is 200. -/
def cache_set {κ α : Type} [DecidableEq κ] (st : CacheState κ α) (key : κ) (val : α)
    (now : ℚ) : CacheState κ α :=
  if (lookupA st.routeCache key).isSome then
    ⟨setA st.routeCache key (now, val), setA st.accessOrder key now⟩
  else
    let st1 :=
      if ROUTE_CACHE_MAX ≤ st.routeCache.length then
        let oldest := ((st.accessOrder.insertionSort (fun a b => a.2 ≤ b.2)).take
          (max 1 (ROUTE_CACHE_MAX / 10))).map (·.1)
        CacheState.mk (oldest.foldl (fun c k => eraseA c k) st.routeCache)
          (oldest.foldl (fun c k => eraseA c k) st.accessOrder)
      else st
    ⟨setA st1.routeCache key (now, val), setA st1.accessOrder key now⟩

/-- `COORD_ROUND_DECIMALS = 7`. -/
def COORD_ROUND_DECIMALS : ℕ := 7

/-- Python `round` to an integer: banker's rounding (ties to even). -/
def roundHalfEven (x : ℚ) : ℤ :=
  if x - ⌊x⌋ < 1 / 2 then ⌊x⌋
  else if 1 / 2 < x - ⌊x⌋ then ⌊x⌋ + 1
  else if Even ⌊x⌋ then ⌊x⌋ else ⌊x⌋ + 1

/-- Python `round(x, 7)`. -/
def pyRound7 (x : ℚ) : ℚ :=
  (roundHalfEven (x * 10 ^ 7) : ℚ) / 10 ^ 7

/-- The route cache key: the f-string of `_make_cache_key` is injective in
the rounded components, so the key is modelled as the component tuple. -/
def make_cache_key (pickup_lat pickup_lng drop_lat drop_lng : ℚ) (alternatives : ℤ) :
    ℚ × ℚ × ℚ × ℚ × ℤ :=
  (pyRound7 pickup_lat, pyRound7 pickup_lng, pyRound7 drop_lat, pyRound7 drop_lng,
   alternatives)

/-- The response returned by the `/route` endpoint: the `from_cache` flag
merged with the route dict. -/
structure RouteResponse where
  from_cache : Bool
  body : RouteOutput
deriving DecidableEq

/-- routing_service.py `route` (the `/route` endpoint): cache lookup, else
compute via `get_route_on_roads` and store; a routing exception becomes an
HTTP 500 and nothing is cached. -/
def route_endpoint (env : RouteEnv) (st : CacheState (ℚ × ℚ × ℚ × ℚ × ℤ) RouteOutput)
    (pickup_lat pickup_lng drop_lat drop_lng : ℚ) (alternatives : ℤ) (now : ℚ) :
    Except PyErr RouteResponse × CacheState (ℚ × ℚ × ℚ × ℚ × ℤ) RouteOutput :=
  let key := make_cache_key pickup_lat pickup_lng drop_lat drop_lng alternatives
  match cache_get st key now with
  | (some v, st1) => (.ok ⟨true, v⟩, st1)
  | (none, st1) =>
    match get_route_on_roads env (.dict [("lat", pickup_lat), ("lng", pickup_lng)])
        (.dict [("lat", drop_lat), ("lng", drop_lng)]) alternatives with
    | .ok r => (.ok ⟨false, r⟩, cache_set st1 key r now)
    | .error e => (.error e, st1)

/-! ### src/routing_service.py — live-location hub -/

/-- `LOCATION_RETENTION_SECONDS = 60 * 60 * 6`. -/
def LOCATION_RETENTION_SECONDS : ℚ := 60 * 60 * 6

/-- A JSON value as delivered by `receive_json` / the HTTP body. -/
inductive JVal where
  | jnum (q : ℚ)
  | jbool (b : Bool)
  | jstr (s : String)
  | jnull
  | jlist (l : List JVal)
  | jobj (l : List (String × JVal))

/-- Python `str.strip()` of whitespace on both ends. -/
def stripWS (l : List Char) : List Char :=
  ((l.dropWhile Char.isWhitespace).reverse.dropWhile Char.isWhitespace).reverse

/-- Leading sign of a numeric literal: `(sign, rest)`. -/
def splitSign : List Char → ℤ × List Char
  | '+' :: r => (1, r)
  | '-' :: r => (-1, r)
  | l => (1, l)

/-- The optional exponent part of a float literal, applied to a parsed
mantissa. -/
def finishExp (sg : ℤ) (mant : ℚ) : List Char → Option ℚ
  | [] => some (sg * mant)
  | c :: r =>
    if c = 'e' ∨ c = 'E' then
      let er := splitSign r
      let ed := er.2.takeWhile Char.isDigit
      let rest := er.2.dropWhile Char.isDigit
      if ed = [] ∨ rest ≠ [] then none
      else some (sg * mant * (10 : ℚ) ^ (er.1 * (digitsToNat ed : ℤ)))
    else none

/-- Python `float(s)` on a string: sign, digits with optional decimal point,
optional exponent, surrounding whitespace allowed (finite decimal literals;
`inf`/`nan` and underscore separators are not modelled). -/
def pyFloatStr (s : String) : Option ℚ :=
  let l := stripWS s.data
  let sl := splitSign l
  let ip := sl.2.takeWhile Char.isDigit
  let l2 := sl.2.dropWhile Char.isDigit
  match l2 with
  | '.' :: r =>
    let fp := r.takeWhile Char.isDigit
    let l3 := r.dropWhile Char.isDigit
    if ip = [] ∧ fp = [] then none
    else finishExp sl.1 (tokenVal ip fp) l3
  | _ =>
    if ip = [] then none else finishExp sl.1 (digitsToNat ip : ℚ) l2

/-- Python `float(v)` on a JSON value: numbers and bools convert, strings are
parsed strictly, everything else raises. -/
def pyFloat : JVal → Except PyErr ℚ
  | .jnum q => .ok q
  | .jbool b => .ok (if b then 1 else 0)
  | .jstr s =>
    match pyFloatStr s with
    | some q => .ok q
    | none => .error .valueError
  | _ => .error .typeError

/-- One normalized entry of `ConnectionManager.last_known`. -/
structure LocRec where
  lat : ℚ
  lng : ℚ
  ts : JVal
  meta : JVal
  received_at : ℚ

/-- The mutable state of `ConnectionManager` (socket objects are numeric
ids). -/
structure HubState where
  drivers : List (String × ℕ)
  monitors : List ℕ
  last_known : List (String × LocRec)

/-- `ConnectionManager.disconnect_driver`: drops the channel registration and
deliberately keeps `last_known`. -/
def disconnect_driver (st : HubState) (id : String) : HubState :=
  { st with drivers := eraseA st.drivers id }

/-- `ConnectionManager.receive_from_driver` with already-normalized numeric
coordinates: upsert the last-known record; the broadcast to monitors is
fire-and-forget and touches no hub state on the success path. -/
def receive_from_driver (st : HubState) (id : String) (lat lng : ℚ) (ts meta : JVal)
    (now : ℚ) : HubState :=
  { st with last_known := setA st.last_known id ⟨lat, lng, ts, meta, now⟩ }

/-- Result of handling one websocket frame in the `ws_driver` loop. -/
inductive WsOutcome where
  | ignored
  | recorded (r : LocRec)
  | errored

/-- One iteration of the `ws_driver` receive loop on an already-decoded JSON
object: messages without both `lat` and `lng` are skipped (`continue`); a
present but non-float-convertible value raises, which the outer handler turns
into `disconnect_driver`; otherwise the message is normalized (`ts` defaults
to the receipt time, `meta` to the empty dict) and recorded and broadcast via
`receive_from_driver`. -/
def ws_handle_message (st : HubState) (id : String) (msg : List (String × JVal))
    (now : ℚ) : HubState × WsOutcome :=
  match lookupA msg "lat", lookupA msg "lng" with
  | some latV, some lngV =>
    (match pyFloat latV, pyFloat lngV with
     | .ok lat, .ok lng =>
       let ts := (lookupA msg "ts").getD (.jnum now)
       let meta := (lookupA msg "meta").getD (.jobj [])
       let r : LocRec := ⟨lat, lng, ts, meta, now⟩
       ({ st with last_known := setA st.last_known id r }, .recorded r)
     | _, _ => (disconnect_driver st id, .errored))
  | _, _ => (st, .ignored)

/-- Outcome of the `/location` HTTP fallback. -/
inductive PostResult where
  | accepted
  | clientError
deriving DecidableEq

/-- Pydantic validation of the optional `ts: Optional[float]` field. -/
def validateTs : JVal → Option (Option ℚ)
  | .jnull => some none
  | v =>
    match pyFloat v with
    | .ok q => some (some q)
    | .error _ => none

/-- Pydantic validation of the optional `meta: Optional[dict]` field. -/
def validateMeta : JVal → Option (List (String × JVal))
  | .jnull => some []
  | .jobj l => some l
  | _ => none

/-- routing_service.py `post_location` (`/location`): pydantic rejects a body
whose `lat`/`lng` is missing or not float-coercible with a client error and
no side effects; a valid body is normalized (`ts` defaults to receipt time,
`meta` to empty) and recorded via `receive_from_driver`. The numeric→string
coercion pydantic applies to `driver_id` is not modelled (the claims fix
`driver_id` to a string). -/
def post_location (st : HubState) (body : List (String × JVal)) (now : ℚ) :
    HubState × PostResult :=
  match lookupA body "driver_id", lookupA body "lat", lookupA body "lng" with
  | some (.jstr did), some latV, some lngV =>
    (match pyFloat latV, pyFloat lngV,
        validateTs ((lookupA body "ts").getD .jnull),
        validateMeta ((lookupA body "meta").getD .jnull) with
     | .ok lat, .ok lng, some tsOpt, some metaL =>
       (receive_from_driver st did lat lng (.jnum (tsOpt.getD now)) (.jobj metaL) now,
        .accepted)
     | _, _, _, _ => (st, .clientError))
  | _, _, _ => (st, .clientError)

/-- `ConnectionManager.cleanup_last_known`: drop every record whose
`_received_at` is older than `now - LOCATION_RETENTION_SECONDS`. -/
def cleanup_last_known (st : HubState) (now : ℚ) : HubState :=
  let keep := fun (kv : String × LocRec) =>
    decide (¬ kv.2.received_at < now - LOCATION_RETENTION_SECONDS)
  { st with last_known := st.last_known.filter keep }

/-! ### Theorems -/

/-- A small concrete routing environment used to evaluate the route function
on concrete inputs. -/
def demoEnv : RouteEnv where
  regionIndex := [("r", ⟨"data/r", some ⟨-10, -10, 10, 10⟩⟩)]
  loadOk := true
  nearestNode := fun lng _ => if lng < 0 then 0 else 1
  projHas := fun _ => true
  simplePaths := fun _ _ => [[0, 1], [0, 2, 1]]
  nodeCoord := fun n => (n, 0)
  edgeAttr := fun _ _ => ⟨some 1000, none, .str "50"⟩

/-- C1: the claim says a call with a missing pickup or dropoff returns the
2-point straight line with null ETA and never raises. The code's fallback at
graphml.py:317 subscripts the missing endpoint, so it raises instead: a None
endpoint gives a TypeError and an empty-dict endpoint a KeyError. -/
theorem C1_missing_endpoint_fallback_raises :
    get_route_on_roads demoEnv PyDictLL.none_ (PyDictLL.dict [("lat", 0), ("lng", 0)]) 1
        = .error PyErr.typeError ∧
    get_route_on_roads demoEnv (PyDictLL.dict [("lat", 0), ("lng", 0)]) PyDictLL.none_ 1
        = .error PyErr.typeError ∧
    get_route_on_roads demoEnv (PyDictLL.dict []) (PyDictLL.dict [("lat", 0), ("lng", 0)]) 1
        = .error PyErr.keyError :=
  ⟨rfl, rfl, rfl⟩

/-- C10: `_cache_get` is not read-only. On a key whose entry is older than
the TTL it deletes the entry from both `_route_cache` and the access-order
table (so an immediate second lookup also misses); on a fresh key it returns
the value, leaves the cache untouched, bumps only that key's last-access
time, and leaves every other access-order entry unchanged. -/
theorem C10_cache_get_effects {κ α : Type} [DecidableEq κ]
    (st : CacheState κ α) (key : κ) (now now2 ts : ℚ) (v : α)
    (hlk : lookupA st.routeCache key = some (ts, v)) :
    (ROUTE_CACHE_TTL < now - ts →
      (cache_get st key now).1 = none ∧
      lookupA (cache_get st key now).2.routeCache key = none ∧
      lookupA (cache_get st key now).2.accessOrder key = none ∧
      (cache_get (cache_get st key now).2 key now2).1 = none ∧
      (∀ k2, k2 ≠ key →
        lookupA (cache_get st key now).2.routeCache k2 = lookupA st.routeCache k2 ∧
        lookupA (cache_get st key now).2.accessOrder k2 = lookupA st.accessOrder k2)) ∧
    (¬ ROUTE_CACHE_TTL < now - ts →
      (cache_get st key now).1 = some v ∧
      (cache_get st key now).2.routeCache = st.routeCache ∧
      lookupA (cache_get st key now).2.accessOrder key = some now ∧
      (∀ k2, k2 ≠ key →
        lookupA (cache_get st key now).2.accessOrder k2 = lookupA st.accessOrder k2)) := by
  constructor
  · intro hstale
    have hres : cache_get st key now =
        (none, ⟨eraseA st.routeCache key, eraseA st.accessOrder key⟩) := by
      simp [cache_get, hlk, hstale]
    refine ⟨by simp [hres], ?_, ?_, ?_, ?_⟩
    · simp [hres, lookupA_eraseA_self]
    · simp [hres, lookupA_eraseA_self]
    · rw [hres]
      simp [cache_get, lookupA_eraseA_self]
    · intro k2 hk2
      simp [hres, lookupA_eraseA_ne _ _ _ hk2]
  · intro hfresh
    have hres : cache_get st key now =
        (some v, ⟨st.routeCache, setA st.accessOrder key now⟩) := by
      simp [cache_get, hlk, hfresh]
    refine ⟨by simp [hres], by simp [hres], ?_, ?_⟩
    · simp [hres, lookupA_setA_self]
    · intro k2 hk2
      simp [hres, lookupA_setA_ne _ _ _ _ hk2]

/-- Witness for C10: a concrete two-entry cache; the key inserted at time 10
is stale at time 5000 and fresh at time 900. -/
theorem C10_cache_get_effects_witness :
    ((cache_get (⟨[("k", (10, 1)), ("j", (4000, 2))], [("k", 10), ("j", 4000)]⟩ :
        CacheState String ℕ) "k" 5000).1 = none ∧
      lookupA (cache_get (⟨[("k", (10, 1)), ("j", (4000, 2))], [("k", 10), ("j", 4000)]⟩ :
        CacheState String ℕ) "k" 5000).2.routeCache "j" = some (4000, 2)) ∧
    ((cache_get (⟨[("k", (10, 1)), ("j", (4000, 2))], [("k", 10), ("j", 4000)]⟩ :
        CacheState String ℕ) "k" 900).1 = some 1) := by
  have h := C10_cache_get_effects
    (⟨[("k", (10, 1)), ("j", (4000, 2))], [("k", 10), ("j", 4000)]⟩ : CacheState String ℕ)
    "k" 5000 0 10 1 (by decide)
  have h2 := C10_cache_get_effects
    (⟨[("k", (10, 1)), ("j", (4000, 2))], [("k", 10), ("j", 4000)]⟩ : CacheState String ℕ)
    "k" 900 0 10 1 (by decide)
  have hstale := h.1 (by norm_num [ROUTE_CACHE_TTL])
  have hfresh := h2.2 (by norm_num [ROUTE_CACHE_TTL])
  exact ⟨⟨hstale.1, ((hstale.2.2.2.2 "j") (by decide)).1⟩, hfresh.1⟩

theorem lookupA_cache_set_self {κ α : Type} [DecidableEq κ]
    (st : CacheState κ α) (key : κ) (val : α) (now : ℚ) :
    lookupA (cache_set st key val now).routeCache key = some (now, val) := by
  unfold cache_set
  by_cases h : (lookupA st.routeCache key).isSome
  · simp [h, lookupA_setA_self]
  · simp [h, lookupA_setA_self]

/-- C5: two identical route requests (same four coordinates, same
alternatives count), the second within the response-cache TTL of the first
result being stored: the first computes and reports `from_cache = false`, the
second returns the identical route body (hence identical coordinates) and
reports `from_cache = true`. -/
theorem C5_route_cache_idempotence (env : RouteEnv)
    (st0 : CacheState (ℚ × ℚ × ℚ × ℚ × ℤ) RouteOutput)
    (plat plng dlat dlng : ℚ) (alternatives : ℤ) (t1 t2 : ℚ) (r : RouteOutput)
    (hmiss : lookupA st0.routeCache (make_cache_key plat plng dlat dlng alternatives) = none)
    (hok : get_route_on_roads env (.dict [("lat", plat), ("lng", plng)])
      (.dict [("lat", dlat), ("lng", dlng)]) alternatives = .ok r)
    (httl : t2 - t1 ≤ ROUTE_CACHE_TTL) :
    (route_endpoint env st0 plat plng dlat dlng alternatives t1).1 = .ok ⟨false, r⟩ ∧
    (route_endpoint env (route_endpoint env st0 plat plng dlat dlng alternatives t1).2
      plat plng dlat dlng alternatives t2).1 = .ok ⟨true, r⟩ := by
  have hfirst : route_endpoint env st0 plat plng dlat dlng alternatives t1 =
      (.ok ⟨false, r⟩,
        cache_set st0 (make_cache_key plat plng dlat dlng alternatives) r t1) := by
    simp [route_endpoint, cache_get, hmiss, hok]
  refine ⟨by rw [hfirst], ?_⟩
  rw [hfirst]
  have hhit := lookupA_cache_set_self st0
    (make_cache_key plat plng dlat dlng alternatives) r t1
  have hnotstale : ¬ ROUTE_CACHE_TTL < t2 - t1 := not_lt.mpr httl
  simp [route_endpoint, cache_get, hhit, hnotstale]

/-- A routing environment whose region index is empty: every well-formed
request degrades to the straight-line result. -/
def emptyIdxEnv : RouteEnv where
  regionIndex := []
  loadOk := false
  nearestNode := fun _ _ => 0
  projHas := fun _ => false
  simplePaths := fun _ _ => []
  nodeCoord := fun _ => (0, 0)
  edgeAttr := fun _ _ => ⟨none, none, .none_⟩

/-- Witness for C5: a concrete environment, empty initial cache, concrete
coordinates, the first request at time 100 and the second at time 150. -/
theorem C5_route_cache_idempotence_witness :
    (route_endpoint emptyIdxEnv ⟨[], []⟩ 5 (-1) 4 1 1 100).1
        = .ok ⟨false, ⟨[[-1, 5], [1, 4]], none, []⟩⟩ ∧
    (route_endpoint emptyIdxEnv (route_endpoint emptyIdxEnv ⟨[], []⟩ 5 (-1) 4 1 1 100).2
        5 (-1) 4 1 1 150).1 = .ok ⟨true, ⟨[[-1, 5], [1, 4]], none, []⟩⟩ :=
  C5_route_cache_idempotence emptyIdxEnv ⟨[], []⟩ 5 (-1) 4 1 1 100 150
    ⟨[[-1, 5], [1, 4]], none, []⟩ rfl rfl (by norm_num [ROUTE_CACHE_TTL])

theorem lookupA_eq_none_of_not_mem {κ β : Type} [DecidableEq κ]
    (l : List (κ × β)) (k : κ) (h : k ∉ l.map Prod.fst) : lookupA l k = none := by
  induction l with
  | nil => rfl
  | cons hd tl ih =>
    simp only [List.map_cons, List.mem_cons] at h
    push_neg at h
    rw [lookupA, if_neg (fun hc => h.1 hc.symm)]
    exact ih h.2

theorem lookupA_filter_of_none {κ β : Type} [DecidableEq κ] (p : κ × β → Bool)
    (l : List (κ × β)) (k : κ) (h : lookupA l k = none) :
    lookupA (l.filter p) k = none := by
  induction l with
  | nil => rfl
  | cons hd tl ih =>
    rw [lookupA] at h
    by_cases hk : hd.1 = k
    · rw [if_pos hk] at h
      cases h
    · rw [if_neg hk] at h
      rw [List.filter_cons]
      cases hph : p hd
      · simpa using ih h
      · simpa [lookupA, hk] using ih h

theorem lookupA_filter_nodup {κ β : Type} [DecidableEq κ] (p : κ × β → Bool)
    (l : List (κ × β)) (k : κ) (v : β)
    (hnd : (l.map Prod.fst).Nodup) (hlk : lookupA l k = some v) :
    lookupA (l.filter p) k = if p (k, v) then some v else none := by
  induction l with
  | nil => simp [lookupA] at hlk
  | cons hd tl ih =>
    rw [List.map_cons, List.nodup_cons] at hnd
    rw [List.filter_cons]
    by_cases hk : hd.1 = k
    · rw [lookupA, if_pos hk] at hlk
      have hv : hd = (k, v) := by
        obtain ⟨h1, h2⟩ := hd
        simp only at hk
        simp only [Option.some.injEq] at hlk
        rw [hk, hlk]
      have htl : lookupA tl k = none := by
        apply lookupA_eq_none_of_not_mem
        rw [← hk]
        exact hnd.1
      rw [hv]
      cases hph : p (k, v)
      · simp only [hph, Bool.false_eq_true, if_false]
        exact lookupA_filter_of_none p tl k htl
      · simp [hph, lookupA]
    · have htl := ih hnd.2 (by rwa [lookupA, if_neg hk] at hlk)
      cases hph : p hd
      · simpa using htl
      · simpa [lookupA, hk] using htl

/-- C9: after a cleanup pass, every last-known record received before
`now - retention` is gone and every record received at or after it survives;
and a driver disconnect alone never touches the last-known table. -/
theorem C9_cleanup_retention (st : HubState) (now : ℚ) (id : String) (r : LocRec)
    (hnd : (st.last_known.map Prod.fst).Nodup)
    (hlk : lookupA st.last_known id = some r) :
    (r.received_at < now - LOCATION_RETENTION_SECONDS →
      lookupA (cleanup_last_known st now).last_known id = none) ∧
    (now - LOCATION_RETENTION_SECONDS ≤ r.received_at →
      lookupA (cleanup_last_known st now).last_known id = some r) ∧
    (∀ d, (disconnect_driver st d).last_known = st.last_known) := by
  have hbase := lookupA_filter_nodup
    (fun kv => decide (¬ kv.2.received_at < now - LOCATION_RETENTION_SECONDS))
    st.last_known id r hnd hlk
  refine ⟨?_, ?_, fun d => rfl⟩
  · intro hold
    rw [cleanup_last_known]
    simp only [hbase]
    rw [if_neg]
    simp [hold]
  · intro hyoung
    rw [cleanup_last_known]
    simp only [hbase]
    rw [if_pos]
    simp [not_lt.mpr hyoung]

/-- Witness for C9: a table with one stale record (received at time 100) and
one fresh record (received at time 30000); a cleanup pass at time 25000
(cutoff 3400) removes the first and keeps the second. -/
theorem C9_cleanup_retention_witness :
    lookupA (cleanup_last_known
      ⟨[], [], [("old", ⟨0, 0, .jnull, .jnull, 100⟩), ("new", ⟨1, 2, .jnull, .jnull, 30000⟩)]⟩
      25000).last_known "old" = none ∧
    lookupA (cleanup_last_known
      ⟨[], [], [("old", ⟨0, 0, .jnull, .jnull, 100⟩), ("new", ⟨1, 2, .jnull, .jnull, 30000⟩)]⟩
      25000).last_known "new" = some ⟨1, 2, .jnull, .jnull, 30000⟩ :=
  ⟨(C9_cleanup_retention
      ⟨[], [], [("old", ⟨0, 0, .jnull, .jnull, 100⟩), ("new", ⟨1, 2, .jnull, .jnull, 30000⟩)]⟩
      25000 "old" ⟨0, 0, .jnull, .jnull, 100⟩ (by simp) rfl).1
    (by norm_num [LOCATION_RETENTION_SECONDS]),
   ((C9_cleanup_retention
      ⟨[], [], [("old", ⟨0, 0, .jnull, .jnull, 100⟩), ("new", ⟨1, 2, .jnull, .jnull, 30000⟩)]⟩
      25000 "new" ⟨1, 2, .jnull, .jnull, 30000⟩ (by simp) rfl).2.1
    (by norm_num [LOCATION_RETENTION_SECONDS]))⟩

/-- C4 counterexample: the claim says a message with a non-numeric `lat`
leaves the channel's registration unaffected. Over the websocket, driver
`d1` is registered, sends `{"lat": "abc", "lng": 0}`, and the resulting
exception deregisters the channel. -/
theorem C4_nonnumeric_deregisters_counterexample :
    lookupA ((ws_handle_message ⟨[("d1", 7)], [], []⟩ "d1"
      [("lat", .jstr "abc"), ("lng", .jnum 0)] 9).1).drivers "d1" = none ∧
    lookupA (HubState.drivers ⟨[("d1", 7)], [], []⟩) "d1" = some 7 :=
  ⟨rfl, rfl⟩

/-- C4 (amended): a message missing `lat` or `lng` is rejected with no side
effects at all; a message whose `lat`/`lng` is present but not numeric
updates no last-known record and broadcasts nothing, but the exception it
raises deregisters the driver channel (while the HTTP fallback rejects such
a body with a client error and no side effects); a valid message yields the
normalized record with timestamp defaulting to receipt time and metadata
defaulting to empty. -/
theorem C4_location_message_validation :
    (∀ (st : HubState) (id : String) (msg : List (String × JVal)) (now : ℚ),
      lookupA msg "lat" = none ∨ lookupA msg "lng" = none →
      ws_handle_message st id msg now = (st, .ignored)) ∧
    (∀ (st : HubState) (id : String) (msg : List (String × JVal)) (now : ℚ)
      (latV lngV : JVal),
      lookupA msg "lat" = some latV → lookupA msg "lng" = some lngV →
      (∃ e, pyFloat latV = .error e) ∨ (∃ e, pyFloat lngV = .error e) →
      (ws_handle_message st id msg now).1.last_known = st.last_known ∧
      (ws_handle_message st id msg now).1.drivers = eraseA st.drivers id ∧
      (ws_handle_message st id msg now).2 = .errored) ∧
    (∀ (st : HubState) (id : String) (msg : List (String × JVal)) (now : ℚ)
      (latV lngV : JVal) (lat lng : ℚ),
      lookupA msg "lat" = some latV → lookupA msg "lng" = some lngV →
      pyFloat latV = .ok lat → pyFloat lngV = .ok lng →
      ws_handle_message st id msg now =
        ({ st with last_known := (setA st.last_known id
            ⟨lat, lng, (lookupA msg "ts").getD (.jnum now),
             (lookupA msg "meta").getD (.jobj []), now⟩) },
         .recorded ⟨lat, lng, (lookupA msg "ts").getD (.jnum now),
             (lookupA msg "meta").getD (.jobj []), now⟩)) ∧
    (∀ (st : HubState) (body : List (String × JVal)) (now : ℚ) (did : String),
      lookupA body "driver_id" = some (.jstr did) →
      ((lookupA body "lat" = none ∨ lookupA body "lng" = none) →
        post_location st body now = (st, .clientError)) ∧
      (∀ latV, lookupA body "lat" = some latV → (∃ e, pyFloat latV = .error e) →
        post_location st body now = (st, .clientError))) ∧
    (∀ (st : HubState) (now : ℚ) (did : String) (lat lng : ℚ),
      post_location st [("driver_id", .jstr did), ("lat", .jnum lat), ("lng", .jnum lng)]
          now =
        ({ st with last_known := (setA st.last_known did
            ⟨lat, lng, .jnum now, .jobj [], now⟩) }, .accepted)) := by
  refine ⟨?_, ?_, ?_, ?_, ?_⟩
  · intro st id msg now h
    rcases h with h | h
    · rw [ws_handle_message, h]
    · rw [ws_handle_message, h]
      cases lookupA msg "lat" <;> rfl
  · intro st id msg now latV lngV hlat hlng herr
    have hgoal : ws_handle_message st id msg now = (disconnect_driver st id, .errored) := by
      rw [ws_handle_message, hlat, hlng]
      rcases herr with ⟨e, he⟩ | ⟨e, he⟩
      · cases hb : pyFloat lngV <;> simp [he, hb]
      · cases ha : pyFloat latV <;> simp [ha, he]
    rw [hgoal]
    exact ⟨rfl, rfl, rfl⟩
  · intro st id msg now latV lngV lat lng hlat hlng hfa hfb
    rw [ws_handle_message, hlat, hlng]
    simp [hfa, hfb]
  · intro st body now did hdid
    constructor
    · intro h
      rcases h with h | h
      · rw [post_location, hdid, h]
      · rw [post_location, hdid, h]
        cases lookupA body "lat" <;> rfl
    · intro latV hlat herr
      obtain ⟨e, he⟩ := herr
      rw [post_location, hdid, hlat]
      cases hlng2 : lookupA body "lng"
      · rfl
      · simp [he]
  · intro st now did lat lng
    rfl

/-- Witness for C4: a registered driver's message without `lng` is ignored
with no state change; a valid websocket message and a valid HTTP body yield
the normalized record with defaulted timestamp and metadata. -/
theorem C4_location_message_validation_witness :
    ws_handle_message ⟨[("d1", 7)], [], []⟩ "d1" [("lat", .jnum 5)] 9 =
      (⟨[("d1", 7)], [], []⟩, .ignored) ∧
    ws_handle_message ⟨[("d1", 7)], [], []⟩ "d1"
        [("lat", .jnum 5), ("lng", .jnum 6)] 9 =
      (⟨[("d1", 7)], [], [("d1", ⟨5, 6, .jnum 9, .jobj [], 9⟩)]⟩,
        .recorded ⟨5, 6, .jnum 9, .jobj [], 9⟩) ∧
    post_location ⟨[], [], []⟩
        [("driver_id", .jstr "d2"), ("lat", .jnum 1), ("lng", .jnum 2)] 4 =
      (⟨[], [], [("d2", ⟨1, 2, .jnum 4, .jobj [], 4⟩)]⟩, .accepted) := by
  refine ⟨C4_location_message_validation.1 ⟨[("d1", 7)], [], []⟩ "d1"
    [("lat", .jnum 5)] 9 (Or.inr rfl), ?_, ?_⟩
  · have h := C4_location_message_validation.2.2.1 ⟨[("d1", 7)], [], []⟩ "d1"
      [("lat", .jnum 5), ("lng", .jnum 6)] 9 (.jnum 5) (.jnum 6) 5 6 rfl rfl rfl rfl
    exact h.trans (by rfl)
  · exact (C4_location_message_validation.2.2.2.2 ⟨[], [], []⟩ 4 "d2" 1 2).trans (by rfl)

theorem parse_maxspeed_fifty : parse_maxspeed (.str "50") = some 50 := by
  have h1 : firstNumericToken (pyLowerStrip "50") = some (['5', '0'], []) := by decide
  have h2 : containsSeq ['m', 'p', 'h'] (pyLowerStrip "50") = false := by decide
  have h3 : (digitsToNat ['5', '0'] : ℕ) = 50 := by decide
  simp only [parse_maxspeed, parse_maxspeed_str, h1, h2, Bool.false_eq_true, if_false]
  norm_num [tokenVal, h3, show digitsToNat [] = 0 from rfl]

theorem parse_maxspeed_zero : parse_maxspeed (.str "0") = some 0 := by
  have h1 : firstNumericToken (pyLowerStrip "0") = some (['0'], []) := by decide
  have h2 : containsSeq ['m', 'p', 'h'] (pyLowerStrip "0") = false := by decide
  have h3 : (digitsToNat ['0'] : ℕ) = 0 := by decide
  simp only [parse_maxspeed, parse_maxspeed_str, h1, h2, Bool.false_eq_true, if_false]
  norm_num [tokenVal, h3, show digitsToNat [] = 0 from rfl]

/-- C2: per-edge speed for the primary path comes from parsing the first
numeric token of the raw speed tag, times 1.60934 when the tag contains an
mph marker, with a default of 40 km/h when the tag is absent, has no numeric
token, or parses non-positive; the ETA is the sum over the path's edges of
`length_m / 1000 / speed_kph * 60` minutes; and a single connecting path of
total length 5000 m at 50 km/h yields `eta_min = 6.0`. -/
theorem C2_speed_parsing_and_eta :
    (∀ a : EdgeAttr, a.speed_kph = none → parse_maxspeed a.maxspeed = none →
      effectiveSpeed a = 40) ∧
    (∀ (a : EdgeAttr) (q : ℚ), a.speed_kph = none → parse_maxspeed a.maxspeed = some q →
      q ≤ 0 → effectiveSpeed a = 40) ∧
    (∀ (a : EdgeAttr) (q : ℚ), a.speed_kph = none → parse_maxspeed a.maxspeed = some q →
      0 < q → effectiveSpeed a = q) ∧
    (∀ (s : String) (ip fp : List Char),
      firstNumericToken (pyLowerStrip s) = some (ip, fp) →
      parse_maxspeed (.str s) = some (if containsSeq ['m', 'p', 'h'] (pyLowerStrip s)
        then tokenVal ip fp * MPH_TO_KPH else tokenVal ip fp)) ∧
    (∀ s : String, firstNumericToken (pyLowerStrip s) = none →
      parse_maxspeed (.str s) = none) ∧
    (∀ attrs : List EdgeAttr, (∀ a ∈ attrs, 0 ≤ a.length.getD 0) →
      pathEtaOfAttrs attrs =
        (attrs.map (fun a => a.length.getD 0 / 1000 / effectiveSpeed a * 60)).sum) ∧
    pathEtaOfAttrs [⟨some 5000, none, .str "50"⟩] = 6 := by
  have heta : ∀ attrs : List EdgeAttr, (∀ a ∈ attrs, 0 ≤ a.length.getD 0) →
      pathEtaOfAttrs attrs =
        (attrs.map (fun a => a.length.getD 0 / 1000 / effectiveSpeed a * 60)).sum := by
    intro attrs h
    induction attrs with
    | nil => rfl
    | cons hd tl ih =>
      have hhd : edgeEta hd = hd.length.getD 0 / 1000 / effectiveSpeed hd * 60 := by
        rw [edgeEta]
        by_cases hpos : 0 < hd.length.getD 0
        · rw [if_pos hpos]
        · have hz : hd.length.getD 0 = 0 :=
            le_antisymm (not_lt.mp hpos) (h hd (by simp))
          rw [if_neg hpos, hz]
          norm_num
      have htl := ih (fun a ha => h a (by simp [ha]))
      simp only [pathEtaOfAttrs, List.map_cons, List.sum_cons] at htl ⊢
      rw [hhd, htl]
  refine ⟨?_, ?_, ?_, ?_, ?_, heta, ?_⟩
  · intro a h1 h2
    simp [effectiveSpeed, h1, h2]
  · intro a q h1 h2 h3
    simp [effectiveSpeed, h1, h2, h3]
  · intro a q h1 h2 h3
    simp [effectiveSpeed, h1, h2, not_le.mpr h3]
  · intro s ip fp h
    simp only [parse_maxspeed, parse_maxspeed_str, h]
    split <;> rfl
  · intro s h
    simp [parse_maxspeed, parse_maxspeed_str, h]
  · have h50 : effectiveSpeed ⟨some 5000, none, .str "50"⟩ = 50 := by
      simp [effectiveSpeed, parse_maxspeed_fifty]
    simp only [pathEtaOfAttrs, List.map_cons, List.map_nil, List.sum_cons, List.sum_nil]
    rw [edgeEta]
    simp only [h50]
    norm_num

/-- Witness for C2: concrete tags — an absent tag gives 40, the tag "0"
parses to a non-positive 0 and gives 40, "50" gives 50, "30 MPH" is
converted with the 1.60934 factor, "abc" has no numeric token, an
all-nonnegative edge list satisfies the ETA formula, and the scenario value
is 6.0 (the last two conjuncts of the theorem restated). -/
theorem C2_speed_parsing_and_eta_witness :
    effectiveSpeed ⟨some 1, none, .none_⟩ = 40 ∧
    effectiveSpeed ⟨some 1, none, .str "0"⟩ = 40 ∧
    effectiveSpeed ⟨some 1, none, .str "50"⟩ = 50 ∧
    parse_maxspeed (.str "30 MPH") = some (tokenVal ['3', '0'] [] * MPH_TO_KPH) ∧
    parse_maxspeed (.str "abc") = none ∧
    pathEtaOfAttrs [⟨some 5000, none, .str "50"⟩] = 6 := by
  refine ⟨?_, ?_, ?_, ?_, ?_, C2_speed_parsing_and_eta.2.2.2.2.2.2⟩
  · exact C2_speed_parsing_and_eta.1 ⟨some 1, none, .none_⟩ rfl rfl
  · exact C2_speed_parsing_and_eta.2.1 ⟨some 1, none, .str "0"⟩ 0 rfl
      parse_maxspeed_zero le_rfl
  · exact C2_speed_parsing_and_eta.2.2.1 ⟨some 1, none, .str "50"⟩ 50 rfl
      parse_maxspeed_fifty (by norm_num)
  · have h := C2_speed_parsing_and_eta.2.2.2.1 "30 MPH" ['3', '0'] [] (by decide)
    rwa [if_pos (by decide)] at h
  · exact C2_speed_parsing_and_eta.2.2.2.2.1 "abc" (by decide)

theorem lookupA_upsertMin_self (g : List ((ℕ × ℕ) × ℚ)) (uv : ℕ × ℕ) (w : ℚ) :
    lookupA (upsertMin g uv w) uv =
      some (match lookupA g uv with | none => w | some wp => min w wp) := by
  induction g with
  | nil => simp [upsertMin, lookupA]
  | cons hd tl ih =>
    obtain ⟨p, wp⟩ := hd
    by_cases hp : p = uv
    · rw [upsertMin, if_pos hp]
      by_cases hw : w < wp
      · rw [if_pos hw]
        simp [lookupA, hp, min_eq_left hw.le]
      · rw [if_neg hw]
        simp [lookupA, hp, min_eq_right (not_lt.mp hw)]
    · rw [upsertMin, if_neg hp]
      simp [lookupA, hp, ih]

theorem lookupA_upsertMin_ne (g : List ((ℕ × ℕ) × ℚ)) (uv uv2 : ℕ × ℕ) (w : ℚ)
    (h : uv2 ≠ uv) : lookupA (upsertMin g uv w) uv2 = lookupA g uv2 := by
  induction g with
  | nil => simp [upsertMin, lookupA, Ne.symm h]
  | cons hd tl ih =>
    obtain ⟨p, wp⟩ := hd
    by_cases hp : p = uv
    · have hne : p ≠ uv2 := by
        rw [hp]; exact Ne.symm h
      rw [upsertMin, if_pos hp]
      by_cases hw : w < wp
      · rw [if_pos hw]
        simp [lookupA, hne]
      · rw [if_neg hw]
    · rw [upsertMin, if_neg hp]
      simp [lookupA, ih]

/-- Merge of an existing simple-graph weight with the minimum of newly folded
parallel-edge weights. -/
def minMerge : Option ℚ → Option ℚ → Option ℚ
  | none, m => m
  | some w, none => some w
  | some w, some m => some (min w m)

theorem lookupA_simple_foldl (edges : List (ℕ × ℕ × Option ℚ)) (g : List ((ℕ × ℕ) × ℚ))
    (uv : ℕ × ℕ) :
    lookupA (edges.foldl (fun g2 e => upsertMin g2 (e.1, e.2.1) (e.2.2.getD 1)) g) uv =
      minMerge (lookupA g uv) (minQ (parallelWeights edges uv)) := by
  induction edges generalizing g with
  | nil =>
    cases h : lookupA g uv <;> simp [h, minMerge, parallelWeights, minQ]
  | cons e rest ih =>
    rw [List.foldl_cons, ih]
    by_cases he : (e.1, e.2.1) = uv
    · have hpw : parallelWeights (e :: rest) uv = e.2.2.getD 1 :: parallelWeights rest uv := by
        simp [parallelWeights, List.filter_cons, he]
      rw [hpw, he, lookupA_upsertMin_self]
      cases hg : lookupA g uv <;> cases hm : minQ (parallelWeights rest uv) <;>
        simp [minMerge, minQ, hm, min_assoc, min_comm, min_left_comm]
    · have hpw : parallelWeights (e :: rest) uv = parallelWeights rest uv := by
        simp [parallelWeights, List.filter_cons, he]
      rw [hpw, lookupA_upsertMin_ne _ _ _ _ (Ne.symm he)]

theorem mem_keys_upsertMin (g : List ((ℕ × ℕ) × ℚ)) (uv : ℕ × ℕ) (w : ℚ) (x : ℕ × ℕ) :
    x ∈ (upsertMin g uv w).map Prod.fst ↔ x ∈ g.map Prod.fst ∨ x = uv := by
  induction g with
  | nil => simp [upsertMin]
  | cons hd tl ih =>
    obtain ⟨p, wp⟩ := hd
    by_cases hp : p = uv
    · rw [upsertMin, if_pos hp]
      have hshape : ∀ y : ℚ, x ∈ (((p, y) :: tl).map Prod.fst) ↔
          (x ∈ ((p, wp) :: tl).map Prod.fst ∨ x = uv) := by
        intro y
        simp only [List.map_cons, List.mem_cons]
        constructor
        · rintro (h | h)
          · exact Or.inr (h.trans hp)
          · exact Or.inl (Or.inr h)
        · rintro ((h | h) | h)
          · exact Or.inl h
          · exact Or.inr h
          · exact Or.inl (h.trans hp.symm)
      by_cases hw : w < wp
      · rw [if_pos hw]
        exact hshape w
      · rw [if_neg hw]
        exact hshape wp
    · rw [upsertMin, if_neg hp]
      simp [List.map_cons, List.mem_cons, ih, or_assoc]

theorem keys_nodup_upsertMin (g : List ((ℕ × ℕ) × ℚ)) (uv : ℕ × ℕ) (w : ℚ)
    (h : (g.map Prod.fst).Nodup) : ((upsertMin g uv w).map Prod.fst).Nodup := by
  induction g with
  | nil => simp [upsertMin]
  | cons hd tl ih =>
    obtain ⟨p, wp⟩ := hd
    rw [List.map_cons, List.nodup_cons] at h
    by_cases hp : p = uv
    · rw [upsertMin, if_pos hp]
      by_cases hw : w < wp
      · rw [if_pos hw]
        rw [List.map_cons, List.nodup_cons]
        exact ⟨h.1, h.2⟩
      · rw [if_neg hw]
        rw [List.map_cons, List.nodup_cons]
        exact ⟨h.1, h.2⟩
    · rw [upsertMin, if_neg hp]
      rw [List.map_cons, List.nodup_cons]
      refine ⟨?_, ih h.2⟩
      intro hmem
      rcases (mem_keys_upsertMin tl uv w p).mp hmem with hm | hm
      · exact h.1 hm
      · exact hp hm

theorem keys_nodup_foldl_upsert (edges : List (ℕ × ℕ × Option ℚ)) :
    ∀ g : List ((ℕ × ℕ) × ℚ), (g.map Prod.fst).Nodup →
    ((edges.foldl (fun g2 e => upsertMin g2 (e.1, e.2.1) (e.2.2.getD 1)) g).map
      Prod.fst).Nodup := by
  induction edges with
  | nil =>
    intro g h
    simpa using h
  | cons e rest ih =>
    intro g h
    rw [List.foldl_cons]
    exact ih _ (keys_nodup_upsertMin _ _ _ h)

/-- C3 counterexample: with parallel edges (0,1) of lengths None and 5.0 the
code's weight is 1.0 (the per-edge default undercuts the usable length),
whereas the claim requires the minimum usable length 5.0 (the default only
when no parallel edge is usable). -/
theorem C3_min_usable_counterexample :
    lookupA (multigraph_to_simple_digraph_min [(0, 1, none), (0, 1, some 5)]) (0, 1)
      = some 1 ∧
    minQ (usableLengths [(0, 1, none), (0, 1, some 5)] (0, 1)) = some 5 ∧
    lookupA (multigraph_to_simple_digraph_min [(0, 1, none), (0, 1, some 5)]) (0, 1)
      ≠ minQ (usableLengths [(0, 1, none), (0, 1, some 5)] (0, 1)) :=
  ⟨by decide, by decide, by decide⟩

/-- C3 (amended): the derived simple digraph has at most one directed edge
per ordered node pair, and that edge's weight is the minimum over the
parallel edges of (the edge's numeric length, or the per-edge default 1.0
when its length is absent or non-numeric) — so the 1.0 default can undercut
a usable length, rather than applying only when no parallel edge is
usable. -/
theorem C3_simplified_graph_min (edges : List (ℕ × ℕ × Option ℚ)) :
    ((multigraph_to_simple_digraph_min edges).map Prod.fst).Nodup ∧
    ∀ uv : ℕ × ℕ, lookupA (multigraph_to_simple_digraph_min edges) uv =
      minQ (parallelWeights edges uv) := by
  constructor
  · exact keys_nodup_foldl_upsert edges [] (by simp)
  · intro uv
    have h := lookupA_simple_foldl edges [] uv
    simpa [minMerge, lookupA] using h

instance {α : Type} : IsTotal (String × ℚ × α) (fun a b => a.2.1 ≤ b.2.1) :=
  ⟨fun a b => le_total a.2.1 b.2.1⟩

instance {α : Type} : IsTrans (String × ℚ × α) (fun a b => a.2.1 ≤ b.2.1) :=
  ⟨fun _ _ _ h1 h2 => le_trans h1 h2⟩

theorem length_evict_if_needed_le {α : Type} (cap : ℕ) (c : List (String × ℚ × α)) :
    (evict_if_needed cap c).length ≤ cap := by
  by_cases h : c.length ≤ cap
  · simp only [evict_if_needed, if_pos h]
    exact h
  · simp only [evict_if_needed, if_neg h]
    have hcap : cap < c.length := lt_of_not_le h
    set sorted := c.insertionSort (fun a b => a.2.1 ≤ b.2.1) with hs
    set victims := (sorted.take (c.length - cap)).map (·.1) with hv
    set q : String × ℚ × α → Bool := fun e => decide (e.1 ∉ victims) with hq
    have hperm : List.Perm sorted c := List.perm_insertionSort _ c
    have hlen : (c.filter q).length = c.countP q := (List.countP_eq_length_filter q c).symm
    have hcount : c.countP q = sorted.countP q := (hperm.countP_eq q).symm
    have hsplit : sorted.countP q =
        (sorted.take (c.length - cap)).countP q +
          (sorted.drop (c.length - cap)).countP q := by
      conv_lhs => rw [← List.take_append_drop (c.length - cap) sorted]
      exact List.countP_append q _ _
    have hzero : (sorted.take (c.length - cap)).countP q = 0 := by
      rw [List.countP_eq_zero]
      intro e he
      have hmem : e.1 ∈ victims := by
        rw [hv]
        exact List.mem_map_of_mem _ he
      simp [hq, hmem]
    have hdrop : (sorted.drop (c.length - cap)).countP q ≤ cap := by
      calc (sorted.drop (c.length - cap)).countP q
          ≤ (sorted.drop (c.length - cap)).length := List.countP_le_length q
        _ = sorted.length - (c.length - cap) := by rw [List.length_drop]
        _ = c.length - (c.length - cap) := by rw [hperm.length_eq]
        _ = cap := Nat.sub_sub_self (le_of_lt hcap)
    calc (c.filter q).length = c.countP q := hlen
      _ = sorted.countP q := hcount
      _ = (sorted.take (c.length - cap)).countP q +
            (sorted.drop (c.length - cap)).countP q := hsplit
      _ = (sorted.drop (c.length - cap)).countP q := by rw [hzero, Nat.zero_add]
      _ ≤ cap := hdrop

theorem length_load_le {α : Type} (cap : ℕ) (c : List (String × ℚ × α))
    (key : String) (now : ℚ) (fresh : α) (h : c.length ≤ cap) :
    (load_composed_subgraph_for_paths cap c key now fresh).length ≤ cap := by
  rw [load_composed_subgraph_for_paths]
  cases hlk : lookupA c key with
  | some tv =>
    rw [length_setA_of_lookupA_isSome c key (now, tv.2) (by simp [hlk])]
    exact h
  | none => exact length_evict_if_needed_le cap _

theorem length_load_seq_le {α : Type} (cap : ℕ) (ops : List (String × ℚ × α)) :
    (load_seq cap ops).length ≤ cap := by
  suffices hgen : ∀ (ops2 : List (String × ℚ × α)) (c : List (String × ℚ × α)),
      c.length ≤ cap →
      (ops2.foldl (fun c2 op =>
        load_composed_subgraph_for_paths cap c2 op.1 op.2.1 op.2.2) c).length ≤ cap by
    exact hgen ops [] (by simp)
  intro ops2
  induction ops2 with
  | nil =>
    intro c h
    simpa using h
  | cons o rest ih =>
    intro c h
    rw [List.foldl_cons]
    exact ih _ (length_load_le cap c o.1 o.2.1 o.2.2 h)

theorem evict_oldest_first {α : Type} (cap : ℕ) (c : List (String × ℚ × α))
    (hnd : (c.map Prod.fst).Nodup) :
    ∀ e ∈ c, e ∉ evict_if_needed cap c →
    ∀ e2 ∈ evict_if_needed cap c, e.2.1 ≤ e2.2.1 := by
  intro e hec hev e2 he2
  by_cases h : c.length ≤ cap
  · simp only [evict_if_needed, if_pos h] at hev
    exact absurd hec hev
  · simp only [evict_if_needed, if_neg h] at hev he2
    set sorted := c.insertionSort (fun a b => a.2.1 ≤ b.2.1) with hs
    set k := c.length - cap with hk
    set victims := (sorted.take k).map (·.1) with hv
    have hperm : List.Perm sorted c := List.perm_insertionSort _ c
    have hqe : e.1 ∈ victims := by
      by_contra hq
      exact hev (List.mem_filter.mpr ⟨hec, by simpa using hq⟩)
    obtain ⟨x, hxtake, hxe⟩ := List.mem_map.mp hqe
    have hxc : x ∈ c := hperm.subset (List.take_subset _ _ hxtake)
    have hxeq : x = e := List.inj_on_of_nodup_map hnd hxc hec hxe
    have he2f := List.mem_filter.mp he2
    have he2nv : e2.1 ∉ victims := by simpa using he2f.2
    have he2s : e2 ∈ sorted.take k ++ sorted.drop k := by
      rw [List.take_append_drop]
      exact hperm.symm.subset he2f.1
    have he2drop : e2 ∈ sorted.drop k := by
      rcases List.mem_append.mp he2s with h1 | h1
      · exact absurd (List.mem_map_of_mem _ h1) he2nv
      · exact h1
    have hp : List.Pairwise (fun (a b : String × ℚ × α) => a.2.1 ≤ b.2.1) sorted :=
      List.sorted_insertionSort _ c
    have hp2 : List.Pairwise (fun (a b : String × ℚ × α) => a.2.1 ≤ b.2.1)
        (sorted.take k ++ sorted.drop k) := by
      rw [List.take_append_drop]
      exact hp
    have := (List.pairwise_append.mp hp2).2.2 e (hxeq ▸ hxtake) e2 he2drop
    exact this

/-- C6: after any sequence of `load_composed_subgraph_for_paths` calls the
in-memory cache holds at most the configured capacity of entries, and when
the capacity is exceeded the eviction loop removes entries strictly in order
of oldest last-access timestamp first (every evicted entry's timestamp is at
most every survivor's). -/
theorem C6_graph_cache_capacity_lru {α : Type} :
    (∀ (cap : ℕ) (ops : List (String × ℚ × α)), (load_seq cap ops).length ≤ cap) ∧
    (∀ (cap : ℕ) (c : List (String × ℚ × α)), (c.map Prod.fst).Nodup →
      ∀ e ∈ c, e ∉ evict_if_needed cap c →
      ∀ e2 ∈ evict_if_needed cap c, e.2.1 ≤ e2.2.1) :=
  ⟨fun cap ops => length_load_seq_le cap ops,
   fun cap c hnd => evict_oldest_first cap c hnd⟩

/-- Witness for C6: four loads against capacity 2 (the default) end with two
entries, and in a concrete over-capacity cache the evicted entry (key "b",
oldest timestamp 1) is no younger than either survivor. -/
theorem C6_graph_cache_capacity_lru_witness :
    (load_seq 2 [("a", 1, (0 : ℕ)), ("b", 2, 0), ("c", 3, 0), ("a", 4, 0)]).length ≤ 2 ∧
    (∀ e2 ∈ evict_if_needed 2 [("a", 3, (0 : ℕ)), ("b", 1, 0), ("c", 2, 0)],
      (("b", 1, 0) : String × ℚ × ℕ).2.1 ≤ e2.2.1) := by
  constructor
  · exact C6_graph_cache_capacity_lru.1 2 _
  · exact C6_graph_cache_capacity_lru.2 2 [("a", 3, 0), ("b", 1, 0), ("c", 2, 0)]
      (by decide) ("b", 1, 0) (by decide) (by decide)

theorem mem_matched_inner (pt : ℚ × ℚ) (index : List (String × RegionMeta))
    (acc : List String) (s : String) :
    s ∈ index.foldl (fun acc2 e =>
      match e.2.bbox with
      | some b => if point_in_bbox pt.1 pt.2 b then e.2.path :: acc2 else acc2
      | none => acc2) acc ↔
    s ∈ acc ∨ ∃ e ∈ index, ∃ b, e.2.bbox = some b ∧
      point_in_bbox pt.1 pt.2 b = true ∧ s = e.2.path := by
  induction index generalizing acc with
  | nil => simp
  | cons hd tl ih =>
    rw [List.foldl_cons]
    cases hb : hd.2.bbox with
    | none =>
      simp only [hb]
      rw [ih]
      simp [hb]
    | some b =>
      simp only [hb]
      by_cases hin : point_in_bbox pt.1 pt.2 b = true
      · rw [if_pos hin, ih]
        simp only [List.mem_cons, hb, Option.some.injEq]
        constructor
        · rintro (h | h)
          · rcases h with h | h
            · exact Or.inr ⟨hd, Or.inl rfl, b, hb, hin, h⟩
            · exact Or.inl h
          · obtain ⟨e, he, b2, hb2, hin2, hs⟩ := h
            exact Or.inr ⟨e, Or.inr he, b2, hb2, hin2, hs⟩
        · rintro (h | h)
          · exact Or.inl (Or.inr h)
          · obtain ⟨e, he | he, b2, hb2, hin2, hs⟩ := h
            · subst he
              rw [hb] at hb2
              cases hb2
              exact Or.inl (Or.inl hs)
            · exact Or.inr ⟨e, he, b2, hb2, hin2, hs⟩
      · rw [if_neg hin, ih]
        constructor
        · rintro (h | h)
          · exact Or.inl h
          · obtain ⟨e, he, b2, hb2, hin2, hs⟩ := h
            exact Or.inr ⟨e, List.mem_cons_of_mem _ he, b2, hb2, hin2, hs⟩
        · rintro (h | h)
          · exact Or.inl h
          · obtain ⟨e, he, b2, hb2, hin2, hs⟩ := h
            rcases List.mem_cons.mp he with he2 | he2
            · subst he2
              rw [hb] at hb2
              cases hb2
              exact absurd hin2 hin
            · exact Or.inr ⟨e, he2, b2, hb2, hin2, hs⟩

theorem mem_matched_outer (pts : List (ℚ × ℚ)) (index : List (String × RegionMeta))
    (acc : List String) (s : String) :
    s ∈ pts.foldl (fun acc2 pt =>
      index.foldl (fun acc3 e =>
        match e.2.bbox with
        | some b => if point_in_bbox pt.1 pt.2 b then e.2.path :: acc3 else acc3
        | none => acc3) acc2) acc ↔
    s ∈ acc ∨ ∃ pt ∈ pts, ∃ e ∈ index, ∃ b, e.2.bbox = some b ∧
      point_in_bbox pt.1 pt.2 b = true ∧ s = e.2.path := by
  induction pts generalizing acc with
  | nil => simp
  | cons p rest ih =>
    rw [List.foldl_cons, ih, mem_matched_inner]
    constructor
    · rintro (h | h)
      · rcases h with h | h
        · exact Or.inl h
        · obtain ⟨e, he, b, hb, hin, hs⟩ := h
          exact Or.inr ⟨p, List.mem_cons_self p rest, e, he, b, hb, hin, hs⟩
      · obtain ⟨pt, hpt, rest2⟩ := h
        exact Or.inr ⟨pt, List.mem_cons_of_mem _ hpt, rest2⟩
    · rintro (h | h)
      · exact Or.inl (Or.inl h)
      · obtain ⟨pt, hpt, e, he, b, hb, hin, hs⟩ := h
        rcases List.mem_cons.mp hpt with hp2 | hp2
        · subst hp2
          exact Or.inl (Or.inr ⟨e, he, b, hb, hin, hs⟩)
        · exact Or.inr ⟨pt, hp2, e, he, b, hb, hin, hs⟩

theorem mem_matchedPaths (pts : List (ℚ × ℚ)) (index : List (String × RegionMeta))
    (s : String) :
    s ∈ matchedPaths pts index ↔
      ∃ pt ∈ pts, ∃ e ∈ index, ∃ b, e.2.bbox = some b ∧
        point_in_bbox pt.1 pt.2 b = true ∧ s = e.2.path := by
  rw [matchedPaths, mem_matched_outer]
  simp

theorem sortedSet_mem (l : List String) (s : String) : s ∈ sortedSet l ↔ s ∈ l := by
  rw [sortedSet, (List.perm_insertionSort _ _).mem_iff]
  exact List.mem_dedup

theorem sortedSet_sorted (l : List String) : List.Sorted (· ≤ ·) (sortedSet l) :=
  List.sorted_insertionSort _ _

theorem sortedSet_nodup (l : List String) : (sortedSet l).Nodup :=
  (List.perm_insertionSort _ _).nodup_iff.mpr (List.nodup_dedup l)

theorem nearestFold_spec (lon lat : ℚ) (centers : List (String × ℚ × ℚ)) :
    ∀ (acc : Option (String × ℚ)) (bv : String × ℚ),
      centers.foldl (fun best c =>
        match best with
        | none => some (c.1, distSq lon lat c)
        | some bv0 => if distSq lon lat c < bv0.2 then some (c.1, distSq lon lat c)
          else some bv0) acc = some bv →
      (acc = some bv ∨ ∃ c ∈ centers, bv = (c.1, distSq lon lat c)) ∧
      (∀ c ∈ centers, bv.2 ≤ distSq lon lat c) ∧
      (∀ q : String × ℚ, acc = some q → bv.2 ≤ q.2) := by
  induction centers with
  | nil =>
    intro acc bv h
    rw [List.foldl_nil] at h
    refine ⟨Or.inl h, by simp, ?_⟩
    intro q hq
    rw [h] at hq
    cases hq
    exact le_refl _
  | cons c0 rest ih =>
    intro acc bv h
    rw [List.foldl_cons] at h
    cases acc with
    | none =>
      obtain ⟨h1, h2, h3⟩ := ih (some (c0.1, distSq lon lat c0)) bv h
      refine ⟨?_, ?_, ?_⟩
      · rcases h1 with h1 | ⟨c, hc, hbv⟩
        · cases h1
          exact Or.inr ⟨c0, List.mem_cons_self c0 rest, rfl⟩
        · exact Or.inr ⟨c, List.mem_cons_of_mem _ hc, hbv⟩
      · intro c hc
        rcases List.mem_cons.mp hc with hc2 | hc2
        · subst hc2
          exact h3 (c.1, distSq lon lat c) rfl
        · exact h2 c hc2
      · intro q hq
        cases hq
    | some q0 =>
      rw [show (match some q0 with
        | none => some (c0.1, distSq lon lat c0)
        | some bv0 => if distSq lon lat c0 < bv0.2 then some (c0.1, distSq lon lat c0)
          else some bv0) =
        (if distSq lon lat c0 < q0.2 then some (c0.1, distSq lon lat c0) else some q0)
        from rfl] at h
      by_cases hlt : distSq lon lat c0 < q0.2
      · rw [if_pos hlt] at h
        obtain ⟨h1, h2, h3⟩ := ih (some (c0.1, distSq lon lat c0)) bv h
        refine ⟨?_, ?_, ?_⟩
        · rcases h1 with h1 | ⟨c, hc, hbv⟩
          · cases h1
            exact Or.inr ⟨c0, List.mem_cons_self c0 rest, rfl⟩
          · exact Or.inr ⟨c, List.mem_cons_of_mem _ hc, hbv⟩
        · intro c hc
          rcases List.mem_cons.mp hc with hc2 | hc2
          · subst hc2
            exact h3 (c.1, distSq lon lat c) rfl
          · exact h2 c hc2
        · intro q hq
          cases hq
          exact le_of_lt (lt_of_le_of_lt (h3 (c0.1, distSq lon lat c0) rfl) hlt)
      · rw [if_neg hlt] at h
        obtain ⟨h1, h2, h3⟩ := ih (some q0) bv h
        refine ⟨?_, ?_, ?_⟩
        · rcases h1 with h1 | ⟨c, hc, hbv⟩
          · exact Or.inl h1
          · exact Or.inr ⟨c, List.mem_cons_of_mem _ hc, hbv⟩
        · intro c hc
          rcases List.mem_cons.mp hc with hc2 | hc2
          · subst hc2
            exact le_trans (h3 q0 rfl) (not_lt.mp hlt)
          · exact h2 c hc2
        · intro q hq
          cases hq
          exact h3 q0 rfl

theorem nearestCenter_spec (lon lat : ℚ) (centers : List (String × ℚ × ℚ)) (p : String)
    (h : nearestCenter lon lat centers = some p) :
    ∃ c ∈ centers, c.1 = p ∧ ∀ c2 ∈ centers, distSq lon lat c ≤ distSq lon lat c2 := by
  rw [nearestCenter] at h
  cases hf : centers.foldl (fun best c =>
      match best with
      | none => some (c.1, distSq lon lat c)
      | some bv0 => if distSq lon lat c < bv0.2 then some (c.1, distSq lon lat c)
        else some bv0) none with
  | none =>
    rw [hf] at h
    cases h
  | some bv =>
    rw [hf] at h
    simp at h
    obtain ⟨h1, h2, _⟩ := nearestFold_spec lon lat centers none bv hf
    rcases h1 with h1 | ⟨c, hc, hbv⟩
    · cases h1
    · refine ⟨c, hc, ?_, ?_⟩
      · rw [hbv] at h
        exact h
      · intro c2 hc2
        have := h2 c2 hc2
        rw [hbv] at this
        exact this

theorem mem_chosen_fold (pts : List (ℚ × ℚ)) (centers : List (String × ℚ × ℚ))
    (acc : List String) (s : String) :
    s ∈ pts.foldl (fun acc2 pt =>
      match nearestCenter pt.1 pt.2 centers with
      | some best => if best ≠ "" then best :: acc2 else acc2
      | none => acc2) acc ↔
    s ∈ acc ∨ ∃ pt ∈ pts, nearestCenter pt.1 pt.2 centers = some s ∧ s ≠ "" := by
  induction pts generalizing acc with
  | nil => simp
  | cons p rest ih =>
    rw [List.foldl_cons]
    cases hn : nearestCenter p.1 p.2 centers with
    | none =>
      simp only [hn]
      rw [ih]
      constructor
      · rintro (h | ⟨pt, hpt, hh⟩)
        · exact Or.inl h
        · exact Or.inr ⟨pt, List.mem_cons_of_mem _ hpt, hh⟩
      · rintro (h | ⟨pt, hpt, hh⟩)
        · exact Or.inl h
        · rcases List.mem_cons.mp hpt with hp2 | hp2
          · subst hp2
            rw [hn] at hh
            cases hh.1
          · exact Or.inr ⟨pt, hp2, hh⟩
    | some best =>
      simp only [hn]
      by_cases hbe : best ≠ ""
      · rw [if_pos hbe, ih]
        constructor
        · rintro (h | ⟨pt, hpt, hh⟩)
          · rcases List.mem_cons.mp h with h2 | h2
            · subst h2
              exact Or.inr ⟨p, List.mem_cons_self p rest, hn, hbe⟩
            · exact Or.inl h2
          · exact Or.inr ⟨pt, List.mem_cons_of_mem _ hpt, hh⟩
        · rintro (h | ⟨pt, hpt, hh⟩)
          · exact Or.inl (List.mem_cons_of_mem _ h)
          · rcases List.mem_cons.mp hpt with hp2 | hp2
            · subst hp2
              rw [hn] at hh
              cases hh.1
              exact Or.inl (List.mem_cons_self _ _)
            · exact Or.inr ⟨pt, hp2, hh⟩
      · rw [if_neg hbe, ih]
        constructor
        · rintro (h | ⟨pt, hpt, hh⟩)
          · exact Or.inl h
          · exact Or.inr ⟨pt, List.mem_cons_of_mem _ hpt, hh⟩
        · rintro (h | ⟨pt, hpt, hh⟩)
          · exact Or.inl h
          · rcases List.mem_cons.mp hpt with hp2 | hp2
            · subst hp2
              rw [hn] at hh
              cases hh.1
              exact absurd hh.2 hbe
            · exact Or.inr ⟨pt, hp2, hh⟩

theorem nodup_eq_singleton {a : String} {l : List String} (hnd : l.Nodup) (ha : a ∈ l)
    (hall : ∀ x ∈ l, x = a) : l = [a] := by
  cases l with
  | nil => cases ha
  | cons x xs =>
    have hx : x = a := hall x (List.mem_cons_self x xs)
    cases xs with
    | nil => rw [hx]
    | cons y ys =>
      have hy : y = a := hall y (List.mem_cons_of_mem _ (List.mem_cons_self y ys))
      rw [List.nodup_cons] at hnd
      rw [hx, hy] at hnd
      exact absurd (List.mem_cons_self a ys) hnd.1

theorem find_regions_eq_matched (points : List QueryPoint)
    (index : List (String × RegionMeta))
    (h : matchedPaths (points.map normalizePoint) index ≠ []) :
    find_regions_for_points points index =
      sortedSet (matchedPaths (points.map normalizePoint) index) := by
  simp only [find_regions_for_points]
  rw [if_pos h]

theorem find_regions_eq_fallback (points : List QueryPoint)
    (index : List (String × RegionMeta))
    (h : matchedPaths (points.map normalizePoint) index = []) :
    find_regions_for_points points index =
      sortedSet ((points.map normalizePoint).foldl (fun acc pt =>
        match nearestCenter pt.1 pt.2 (bboxCenters index) with
        | some best => if best ≠ "" then best :: acc else acc
        | none => acc) []) := by
  simp only [find_regions_for_points]
  rw [if_neg (fun hne => hne h)]

theorem nearestFold_isSome (lon lat : ℚ) :
    ∀ (centers : List (String × ℚ × ℚ)) (acc : String × ℚ),
      ∃ bv, centers.foldl (fun best c =>
        match best with
        | none => some (c.1, distSq lon lat c)
        | some bv0 => if distSq lon lat c < bv0.2 then some (c.1, distSq lon lat c)
          else some bv0) (some acc) = some bv := by
  intro centers
  induction centers with
  | nil =>
    intro acc
    exact ⟨acc, rfl⟩
  | cons c0 rest ih =>
    intro acc
    rw [List.foldl_cons]
    rw [show (match some acc with
      | none => some (c0.1, distSq lon lat c0)
      | some bv0 => if distSq lon lat c0 < bv0.2 then some (c0.1, distSq lon lat c0)
        else some bv0) =
      (if distSq lon lat c0 < acc.2 then some (c0.1, distSq lon lat c0) else some acc)
      from rfl]
    by_cases hlt : distSq lon lat c0 < acc.2
    · rw [if_pos hlt]
      exact ih (c0.1, distSq lon lat c0)
    · rw [if_neg hlt]
      exact ih acc

theorem nearestCenter_isSome (lon lat : ℚ) (centers : List (String × ℚ × ℚ))
    (h : centers ≠ []) : ∃ p, nearestCenter lon lat centers = some p := by
  cases centers with
  | nil => exact absurd rfl h
  | cons c0 rest =>
    obtain ⟨bv, hbv⟩ := nearestFold_isSome lon lat rest (c0.1, distSq lon lat c0)
    refine ⟨bv.1, ?_⟩
    rw [nearestCenter, List.foldl_cons]
    rw [show (match (none : Option (String × ℚ)) with
      | none => some (c0.1, distSq lon lat c0)
      | some bv0 => if distSq lon lat c0 < bv0.2 then some (c0.1, distSq lon lat c0)
        else some bv0) = some (c0.1, distSq lon lat c0) from rfl]
    rw [hbv]
    rfl

/-- C7: `find_regions_for_points` normalizes every query point to
`(lon, lat)`, collects every indexed region whose bbox contains some point
(bounds inclusive) and returns that union sorted and deduplicated; when the
union is empty it instead returns the sorted set of, per point, a region
whose bbox center is at minimal squared Euclidean distance — every returned
path is such a nearest region for some point, and for each point the result
contains a nearest region for it (given some region has a bbox and region
paths are nonempty strings, reflecting the `if best:` truthiness guard); in
particular a point strictly inside exactly one region's bbox resolves to
exactly that region. -/
theorem C7_find_regions_for_points (points : List QueryPoint)
    (index : List (String × RegionMeta)) :
    (List.Sorted (· ≤ ·) (find_regions_for_points points index) ∧
      (find_regions_for_points points index).Nodup) ∧
    (∀ lat lng, normalizePoint (QueryPoint.dict lat lng) = (lng, lat)) ∧
    (∀ lat lon, normalizePoint (QueryPoint.pair lat lon) = (lon, lat)) ∧
    (∀ (lon lat : ℚ) (b : Bbox), point_in_bbox lon lat b = true ↔
      (b.minx ≤ lon ∧ lon ≤ b.maxx ∧ b.miny ≤ lat ∧ lat ≤ b.maxy)) ∧
    (matchedPaths (points.map normalizePoint) index ≠ [] →
      ∀ s, s ∈ find_regions_for_points points index ↔
        ∃ pt ∈ points.map normalizePoint, ∃ e ∈ index, ∃ b, e.2.bbox = some b ∧
          point_in_bbox pt.1 pt.2 b = true ∧ s = e.2.path) ∧
    (matchedPaths (points.map normalizePoint) index = [] →
      ∀ s ∈ find_regions_for_points points index,
        ∃ pt ∈ points.map normalizePoint, ∃ c ∈ bboxCenters index, c.1 = s ∧
          ∀ c2 ∈ bboxCenters index, distSq pt.1 pt.2 c ≤ distSq pt.1 pt.2 c2) ∧
    (matchedPaths (points.map normalizePoint) index = [] →
      bboxCenters index ≠ [] →
      (∀ c ∈ bboxCenters index, c.1 ≠ "") →
      ∀ pt ∈ points.map normalizePoint,
        ∃ p ∈ find_regions_for_points points index, ∃ c ∈ bboxCenters index, c.1 = p ∧
          ∀ c2 ∈ bboxCenters index, distSq pt.1 pt.2 c ≤ distSq pt.1 pt.2 c2) ∧
    (∀ (pt : QueryPoint) (e0 : String × RegionMeta) (b0 : Bbox),
      e0 ∈ index → e0.2.bbox = some b0 →
      b0.minx < (normalizePoint pt).1 → (normalizePoint pt).1 < b0.maxx →
      b0.miny < (normalizePoint pt).2 → (normalizePoint pt).2 < b0.maxy →
      (∀ e ∈ index, ∀ b, e.2.bbox = some b →
        point_in_bbox (normalizePoint pt).1 (normalizePoint pt).2 b = true →
        e.2.path = e0.2.path) →
      find_regions_for_points [pt] index = [e0.2.path]) := by
  refine ⟨?_, fun lat lng => rfl, fun lat lon => rfl, ?_, ?_, ?_, ?_, ?_⟩
  · by_cases hm : matchedPaths (points.map normalizePoint) index ≠ []
    · rw [find_regions_eq_matched _ _ hm]
      exact ⟨sortedSet_sorted _, sortedSet_nodup _⟩
    · rw [find_regions_eq_fallback _ _ (not_not.mp hm)]
      exact ⟨sortedSet_sorted _, sortedSet_nodup _⟩
  · intro lon lat b
    simp [point_in_bbox, and_assoc]
  · intro hm s
    rw [find_regions_eq_matched _ _ hm, sortedSet_mem, mem_matchedPaths]
  · intro hm s hs
    rw [find_regions_eq_fallback _ _ hm, sortedSet_mem, mem_chosen_fold] at hs
    rcases hs with hs | ⟨pt, hpt, hnc, hne⟩
    · exact absurd hs (List.not_mem_nil s)
    · obtain ⟨c, hc, hcp, hmin⟩ := nearestCenter_spec pt.1 pt.2 (bboxCenters index) s hnc
      exact ⟨pt, hpt, c, hc, hcp, hmin⟩
  · intro hm hcne hpne pt hpt
    obtain ⟨p, hp⟩ := nearestCenter_isSome pt.1 pt.2 (bboxCenters index) hcne
    obtain ⟨c, hc, hcp, hmin⟩ := nearestCenter_spec pt.1 pt.2 (bboxCenters index) p hp
    have hpe : p ≠ "" := by
      rw [← hcp]
      exact hpne c hc
    have hmem : p ∈ find_regions_for_points points index := by
      rw [find_regions_eq_fallback _ _ hm, sortedSet_mem, mem_chosen_fold]
      exact Or.inr ⟨pt, hpt, hp, hpe⟩
    exact ⟨p, hmem, c, hc, hcp, hmin⟩
  · intro pt e0 b0 he0 hb0 h1 h2 h3 h4 huniq
    have hin : point_in_bbox (normalizePoint pt).1 (normalizePoint pt).2 b0 = true := by
      simp only [point_in_bbox, Bool.and_eq_true, decide_eq_true_eq]
      exact ⟨⟨⟨le_of_lt h1, le_of_lt h2⟩, le_of_lt h3⟩, le_of_lt h4⟩
    have hmm : e0.2.path ∈ matchedPaths ([pt].map normalizePoint) index := by
      rw [mem_matchedPaths]
      exact ⟨normalizePoint pt, by simp, e0, he0, b0, hb0, hin, rfl⟩
    have hmne : matchedPaths ([pt].map normalizePoint) index ≠ [] := by
      intro hh
      rw [hh] at hmm
      exact absurd hmm (List.not_mem_nil _)
    rw [find_regions_eq_matched _ _ hmne]
    apply nodup_eq_singleton (sortedSet_nodup _)
    · rw [sortedSet_mem]
      exact hmm
    · intro x hx
      rw [sortedSet_mem, mem_matchedPaths] at hx
      obtain ⟨pt2, hpt2, e, he, b, hb, hin2, hx2⟩ := hx
      have hpt2e : pt2 = normalizePoint pt := by
        simpa using hpt2
      subst hpt2e
      rw [hx2]
      exact huniq e he b hb hin2

/-- Witness for C7: the point (lat 5, lng -1) lies strictly inside the single
indexed region's bbox and resolves to exactly that region file; and for a
point (lat 50, lng 50) outside every bbox the fallback result contains a
region whose bbox center is at minimal squared distance to it. -/
theorem C7_find_regions_for_points_witness :
    find_regions_for_points [QueryPoint.dict 5 (-1)]
      [("r", ⟨"data/r", some ⟨-10, -10, 10, 10⟩⟩)] = ["data/r"] ∧
    (∃ p ∈ find_regions_for_points [QueryPoint.dict 50 50]
        [("r", ⟨"data/r", some ⟨-10, -10, 10, 10⟩⟩),
         ("s", ⟨"data/s", some ⟨20, 20, 30, 30⟩⟩)],
      ∃ c ∈ bboxCenters [("r", ⟨"data/r", some ⟨-10, -10, 10, 10⟩⟩),
          ("s", ⟨"data/s", some ⟨20, 20, 30, 30⟩⟩)], c.1 = p ∧
        ∀ c2 ∈ bboxCenters [("r", ⟨"data/r", some ⟨-10, -10, 10, 10⟩⟩),
            ("s", ⟨"data/s", some ⟨20, 20, 30, 30⟩⟩)],
          distSq 50 50 c ≤ distSq 50 50 c2) := by
  constructor
  · have h := (C7_find_regions_for_points [QueryPoint.dict 5 (-1)]
      [("r", ⟨"data/r", some ⟨-10, -10, 10, 10⟩⟩)]).2.2.2.2.2.2.2
    exact h (QueryPoint.dict 5 (-1)) ("r", ⟨"data/r", some ⟨-10, -10, 10, 10⟩⟩)
      ⟨-10, -10, 10, 10⟩ (List.mem_singleton.mpr rfl) rfl (by decide) (by decide)
      (by decide) (by decide)
      (by
        intro e he b hb hin
        rw [List.mem_singleton] at he
        subst he
        rfl)
  · have h := (C7_find_regions_for_points [QueryPoint.dict 50 50]
      [("r", ⟨"data/r", some ⟨-10, -10, 10, 10⟩⟩),
       ("s", ⟨"data/s", some ⟨20, 20, 30, 30⟩⟩)]).2.2.2.2.2.2.1
    exact h (by decide) (by simp [bboxCenters]) (by simp [bboxCenters])
      ((50 : ℚ), (50 : ℚ)) (by decide)

/-- C8: with `alternatives = k` (k ≥ 1) and a successful graph path, the
result consists of the first `min(k, available)` enumerated simple paths —
the primary polyline with its ETA plus at most `k - 1` alternate polylines
(no ETA for alternates); in total at most `k` paths, and `k = 1` gives an
empty alternates list. -/
theorem C8_alternatives_take (env : RouteEnv) (plat plng dlat dlng : ℚ) (k : ℤ)
    (hk : 1 ≤ k)
    (hsel : find_regions_for_points
      [QueryPoint.dict plat plng, QueryPoint.dict dlat dlng] env.regionIndex ≠ [])
    (hload : env.loadOk = true)
    (hp1 : env.projHas (env.nearestNode plng plat) = true)
    (hp2 : env.projHas (env.nearestNode dlng dlat) = true)
    (g0 : List ℕ) (grest : List (List ℕ))
    (hgen : env.simplePaths (env.nearestNode plng plat) (env.nearestNode dlng dlat)
      = g0 :: grest) :
    get_route_on_roads env (.dict [("lat", plat), ("lng", plng)])
      (.dict [("lat", dlat), ("lng", dlng)]) k =
      .ok ⟨polylineOf env g0, some (pathEta env g0),
        (grest.take (k.toNat - 1)).map (polylineOf env)⟩ ∧
    g0 :: grest.take (k.toNat - 1) = (g0 :: grest).take k.toNat ∧
    1 + (grest.take (k.toNat - 1)).length ≤ k.toNat ∧
    (k = 1 → (grest.take (k.toNat - 1)).map (polylineOf env) = []) := by
  obtain ⟨m, hm⟩ : ∃ m, k.toNat = m + 1 := ⟨k.toNat - 1, by omega⟩
  have hmm : k.toNat - 1 = m := by omega
  refine ⟨?_, ?_, ?_, ?_⟩
  · rw [get_route_on_roads]
    have htr : (truthyLL (.dict [("lat", plat), ("lng", plng)]) = false ||
        truthyLL (.dict [("lat", dlat), ("lng", dlng)]) = false) = false := by
      simp [truthyLL]
    rw [htr]
    simp only [Bool.false_eq_true, if_false]
    have hs1 : subscr (.dict [("lat", plat), ("lng", plng)]) "lng" = .ok plng := rfl
    have hs2 : subscr (.dict [("lat", plat), ("lng", plng)]) "lat" = .ok plat := rfl
    have hs3 : subscr (.dict [("lat", dlat), ("lng", dlng)]) "lng" = .ok dlng := rfl
    have hs4 : subscr (.dict [("lat", dlat), ("lng", dlng)]) "lat" = .ok dlat := rfl
    rw [hs1, hs2, hs3, hs4]
    simp only [if_neg hsel, hload, Bool.true_eq_false, if_false, hp1, hp2,
      Bool.false_or, hgen]
    have hmax : (max 1 k).toNat = m + 1 := by omega
    rw [hmax, List.take_succ_cons, hmm]
    simp
  · rw [hm, List.take_succ_cons]
    simp
  · have := List.length_take_le (k.toNat - 1) grest
    omega
  · intro h1
    subst h1
    simp

/-- Witness for C8: in the concrete environment the enumeration has two
paths; `alternatives = 2` returns the primary plus one alternate polyline,
`alternatives = 1` returns the primary and an empty alternates list. -/
theorem C8_alternatives_take_witness :
    get_route_on_roads demoEnv (.dict [("lat", 5), ("lng", -1)])
      (.dict [("lat", 4), ("lng", 1)]) 2 =
      .ok ⟨polylineOf demoEnv [0, 1], some (pathEta demoEnv [0, 1]),
        [polylineOf demoEnv [0, 2, 1]]⟩ ∧
    get_route_on_roads demoEnv (.dict [("lat", 5), ("lng", -1)])
      (.dict [("lat", 4), ("lng", 1)]) 1 =
      .ok ⟨polylineOf demoEnv [0, 1], some (pathEta demoEnv [0, 1]), []⟩ := by
  have h2 := C8_alternatives_take demoEnv 5 (-1) 4 1 2 (by norm_num) (by decide)
    rfl rfl rfl [0, 1] [[0, 2, 1]] (by decide)
  have h1 := C8_alternatives_take demoEnv 5 (-1) 4 1 1 le_rfl (by decide)
    rfl rfl rfl [0, 1] [[0, 2, 1]] (by decide)
  exact ⟨h2.1.trans (by rfl), h1.1.trans (by rfl)⟩
